import Mathlib

/-!
Shallow embedding of the Garmin/Kestrel combiner (main.py).

Timestamps are wall-clock times of day measured in seconds (Nat, < 86400).
Text is modelled at character level so that the two strptime formats used by
the program ('%H:%M:%S' and '%Y-%m-%d %I:%M:%S %p') are real, disjoint
parsers, as in the source.
-/

/-- ASCII digit character for a digit value. -/
def digitOf (d : Nat) : Char := Char.ofNat (48 + d)

def isDigitCh (c : Char) : Bool := 48 ≤ c.toNat && c.toNat ≤ 57

def digitVal (c : Char) : Nat := c.toNat - 48

/-- Split a character list on a separator character, like str.split with a
single-character separator: always returns at least one (possibly empty) part. -/
def splitOnCh (sep : Char) : List Char → List (List Char)
  | [] => [[]]
  | c :: rest =>
    let r := splitOnCh sep rest
    if c = sep then [] :: r
    else
      match r with
      | [] => [[c]]
      | h :: t => (c :: h) :: t

/-- Read a 1- or 2-digit decimal field, as strptime does for %H/%M/%S/%m/%d/%I. -/
def readNat2 (l : List Char) : Option Nat :=
  match l with
  | [a] => if isDigitCh a then some (digitVal a) else none
  | [a, b] => if isDigitCh a && isDigitCh b then some (10 * digitVal a + digitVal b) else none
  | _ => none

/-- Read an exactly-4-digit decimal field, as strptime does for %Y. -/
def readNat4 (l : List Char) : Option Nat :=
  match l with
  | [a, b, c, d] =>
    if isDigitCh a && isDigitCh b && isDigitCh c && isDigitCh d then
      some (1000 * digitVal a + 100 * digitVal b + 10 * digitVal c + digitVal d)
    else none
  | _ => none

/-- Parse a '%H:%M:%S' time-of-day into seconds. -/
def parseHMS (l : List Char) : Option Nat :=
  match splitOnCh ':' l with
  | [hh, mm, ss] =>
    match readNat2 hh, readNat2 mm, readNat2 ss with
    | some h, some m, some s =>
      if h < 24 && m < 60 && s < 60 then some (3600 * h + 60 * m + s) else none
    | _, _, _ => none
  | _ => none

/-- Convert a 12-hour clock hour with an AM/PM flag to a 24-hour clock hour. -/
def hour24 (h12 : Nat) (pm : Bool) : Nat :=
  if pm then (if h12 = 12 then 12 else h12 + 12)
  else (if h12 = 12 then 0 else h12)

/-- Parse a '%Y-%m-%d %I:%M:%S %p' date-time; only the time of day (seconds)
is kept, since the program immediately reformats with strftime('%H:%M:%S'). -/
def parseKestrelTs (l : List Char) : Option Nat :=
  match splitOnCh ' ' l with
  | [datePart, timePart, ap] =>
    match splitOnCh '-' datePart, splitOnCh ':' timePart with
    | [y, mo, dy], [hh, mm, ss] =>
      match readNat4 y, readNat2 mo, readNat2 dy, readNat2 hh, readNat2 mm, readNat2 ss with
      | some _, some mo', some dy', some h, some m, some s =>
        let pmOpt : Option Bool :=
          if ap = ['A', 'M'] then some false
          else if ap = ['P', 'M'] then some true
          else none
        match pmOpt with
        | some pm =>
          if 1 ≤ mo' && mo' ≤ 12 && 1 ≤ dy' && dy' ≤ 31 && 1 ≤ h && h ≤ 12
              && m < 60 && s < 60 then
            some (3600 * hour24 h pm + 60 * m + s)
          else none
        | none => none
      | _, _, _, _, _, _ => none
    | _, _ => none
  | _ => none

/-- Two-digit zero-padded decimal rendering, as strftime produces. -/
def pad2 (n : Nat) : List Char := [digitOf (n / 10 % 10), digitOf (n % 10)]

/-- strftime('%H:%M:%S') of a seconds-of-day value. -/
def formatHMS (t : Nat) : List Char :=
  pad2 (t / 3600) ++ ':' :: (pad2 (t % 3600 / 60) ++ ':' :: pad2 (t % 60))

def parseHMSStr (s : String) : Option Nat := parseHMS s.data

def parseKestrelTsStr (s : String) : Option Nat := parseKestrelTs s.data

def formatHMSStr (t : Nat) : String := String.mk (formatHMS t)

/-!
Data model: a cell of a pandas DataFrame, and a DataFrame as a column-name
list plus a row list. `Cell.time` models a parsed pandas Timestamp (seconds
of day, both strptime formats here put the parsed value on a fixed date),
`Cell.null` models NaN/NaT.
-/

inductive Cell where
  | str : String → Cell
  | num : Int → Cell
  | null : Cell
  | time : Nat → Cell
deriving Repr, DecidableEq

structure DFrame where
  cols : List String
  rows : List (List Cell)
deriving Repr, DecidableEq

/-- Error taxonomy of the run: unsupported container extension, a strict
to_datetime failure, idxmin over no valid difference (empty weather table),
label/shape errors (KeyError, duplicate labels, length mismatch), and other
read/write failures. -/
inductive Err where
  | unsupportedFormat : Err
  | parse : Err
  | alignment : Err
  | shape : Err
  | ioErr : Err
deriving Repr, DecidableEq

def exceptOfOption (o : Option α) (e : Err) : Except Err α :=
  match o with
  | some a => .ok a
  | none => .error e

/-- Index of the unique column with a given label: pandas label access
`df[name]` used as a single column. `none` when the label is missing
(KeyError) or duplicated (the program then feeds a DataFrame to to_datetime,
which fails). -/
def uniqueIdx : List String → String → Option Nat
  | [], _ => none
  | c :: cs, nm =>
    if c = nm then (if nm ∈ cs then none else some 0)
    else (uniqueIdx cs nm).map (· + 1)

/-- usecols=[0..n-1]: keep the first n columns; pandas raises when the file
has fewer columns than requested. -/
def usecolsN (n : Nat) (df : DFrame) : Except Err DFrame :=
  if n ≤ df.cols.length then
    .ok { cols := df.cols.take n, rows := df.rows.map (fun r => r.take n) }
  else .error .shape

/-- df.rename(columns={df.columns[5]: 'Timestamp'}): renames every column
whose label equals the sixth column's label. -/
def renameCol5 (df : DFrame) : Except Err DFrame :=
  match df.cols.get? 5 with
  | none => .error .shape
  | some old =>
    .ok { df with cols := df.cols.map (fun c => if c = old then "Timestamp" else c) }

/-- The rename mapping of the weather branch,
{columns[0]: 'Timestamp', columns[1]: 'Temperature', columns[2]: 'Relative
Humidity', columns[3]: 'Station Pressure'}; later dict entries shadow
earlier ones when original labels coincide. -/
def kestrelRenameMap (c0 c1 c2 c3 : String) (c : String) : String :=
  if c = c3 then "Station Pressure"
  else if c = c2 then "Relative Humidity"
  else if c = c1 then "Temperature"
  else if c = c0 then "Timestamp"
  else c

def renameKestrelCols (df : DFrame) : Except Err DFrame :=
  match df.cols.get? 0, df.cols.get? 1, df.cols.get? 2, df.cols.get? 3 with
  | some c0, some c1, some c2, some c3 =>
    .ok { df with cols := df.cols.map (kestrelRenameMap c0 c1 c2 c3) }
  | _, _, _, _ => .error .shape

/-- The 15 fixed column names assigned to the weather CSV
(df.columns = [...]); pandas raises when the frame does not have exactly 15
columns. -/
def kestrelCsvNames : List String :=
  ["Timestamp", "Temperature", "Relative Humidity", "Station Pressure",
   "Heat Index", "Dew Point", "Density Altitude", "Data Type",
   "Record name", "Start time", "Duration (H:M:S)", "Location description",
   "Location address", "Location coordinates", "Notes"]

def setKestrelNames (df : DFrame) : Except Err DFrame :=
  if df.cols.length = 15 then .ok { df with cols := kestrelCsvNames }
  else .error .shape

/-- df[names]: column selection by a list of labels (first occurrence of
each label); fails when some label is absent. -/
def selectCols (df : DFrame) (names : List String) : Except Err DFrame :=
  if names.all (fun nm => df.cols.contains nm) then
    .ok { cols := names,
          rows := df.rows.map (fun r =>
            names.map (fun nm => r.getD (df.cols.indexOf nm) Cell.null)) }
  else .error .shape

/-- to_datetime(..., errors='coerce').dt.strftime('%H:%M:%S') applied to one
cell: parse failures coerce to NaT, which strftime maps to NaN. -/
def coerceCell (parse : String → Option Nat) : Cell → Cell
  | .str s =>
    match parse s with
    | some t => .str (formatHMSStr t)
    | none => .null
  | .num _ => .null
  | .null => .null
  | .time _ => .null

/-- df['Timestamp'] = to_datetime(df['Timestamp'], format=..., errors='coerce')
.dt.strftime('%H:%M:%S'): rewrite the unique Timestamp column in place. -/
def coerceTsCol (parse : String → Option Nat) (df : DFrame) : Except Err DFrame :=
  match uniqueIdx df.cols "Timestamp" with
  | none => .error .shape
  | some i =>
    .ok { df with rows := df.rows.map (fun r => r.set i (coerceCell parse (r.getD i Cell.null))) }

def isNullCell : Cell → Bool
  | .null => true
  | _ => false

/-- df.dropna(subset=['Timestamp']): drop the rows whose Timestamp cell is NaN. -/
def dropnaTs (df : DFrame) : Except Err DFrame :=
  match uniqueIdx df.cols "Timestamp" with
  | none => .error .shape
  | some i =>
    .ok { df with rows := df.rows.filter (fun r => !isNullCell (r.getD i Cell.null)) }

/-!
SourceNormalizer: read_file's four branches, acting on the logical raw table
(the grid after the preamble skip, header row as column names).
-/

def tsSelectNames : List String :=
  ["Timestamp", "Temperature", "Relative Humidity", "Station Pressure"]

/-- read_file, weather (.xlsx) branch: usecols 0..14, rename first four
columns, reorder (a no-op selection), parse timestamps with the 12-hour
date format. -/
def normalizeKestrelXlsx (df : DFrame) : Except Err DFrame := do
  let d1 ← usecolsN 15 df
  let d2 ← renameKestrelCols d1
  let d3 ← selectCols d2 (tsSelectNames ++ d2.cols.drop 4)
  coerceTsCol parseKestrelTsStr d3

/-- read_file, weather (.csv) branch: assign the 15 fixed names, parse
timestamps, reorder (a no-op selection). -/
def normalizeKestrelCsv (df : DFrame) : Except Err DFrame := do
  let d1 ← setKestrelNames df
  let d2 ← coerceTsCol parseKestrelTsStr d1
  selectCols d2 (tsSelectNames ++ d2.cols.drop 4)

/-- read_file, one chronograph sheet of an .xlsx workbook: usecols 0..8,
rename column 5 to Timestamp, parse with '%H:%M:%S'. -/
def normalizeGarminXlsxSheet (df : DFrame) : Except Err DFrame := do
  let d1 ← usecolsN 9 df
  let d2 ← renameCol5 d1
  coerceTsCol parseHMSStr d2

/-- read_file, chronograph .csv branch: usecols 0..8 then parse the column
already labelled 'Timestamp' (no positional rename here). -/
def normalizeGarminCsv (df : DFrame) : Except Err DFrame := do
  let d1 ← usecolsN 9 df
  coerceTsCol parseHMSStr d1

/-- Content of an input file: an .xlsx workbook of named sheets, or one
delimited-text table. -/
inductive FileContent where
  | workbook : List (String × DFrame) → FileContent
  | text : DFrame → FileContent
deriving Repr, DecidableEq

structure SrcFile where
  path : String
  content : FileContent
deriving Repr, DecidableEq

/-- read_file returns either one DataFrame or (for a chronograph workbook) a
dict of per-sheet DataFrames. -/
inductive ReadResult where
  | single : DFrame → ReadResult
  | sheets : List (String × DFrame) → ReadResult
deriving Repr, DecidableEq

/-- str.endswith(suffix), computed structurally over the character lists. -/
def strEndsWith (s suffix : String) : Bool :=
  List.isPrefixOf suffix.data.reverse s.data.reverse

def read_file (f : SrcFile) (is_kestrel : Bool) : Except Err ReadResult :=
  if strEndsWith f.path ".xlsx" then
    match f.content with
    | .workbook ws =>
      if is_kestrel then
        match ws with
        | [] => .error .ioErr
        | (_, d) :: _ => (normalizeKestrelXlsx d).map .single
      else do
        let l ← ws.mapM (fun p => do
          let d ← normalizeGarminXlsxSheet p.2
          pure (p.1, d))
        pure (.sheets l)
    | .text _ => .error .ioErr
  else if strEndsWith f.path ".csv" then
    match f.content with
    | .text d =>
      if is_kestrel then (normalizeKestrelCsv d).map .single
      else (normalizeGarminCsv d).map .single
    | .workbook _ => .error .ioErr
  else .error .unsupportedFormat

/-!
TimeIndex and Aligner: find_closest and process_garmin_sheet.
-/

/-- to_datetime(cell, format='%H:%M:%S') without errors='coerce', for the
query row's timestamp: NaN passes through as NaT, an unparseable string or a
number raises. -/
def strictParseRowTime : Cell → Except Err (Option Nat)
  | .str s =>
    match parseHMSStr s with
    | some t => .ok (some t)
    | none => .error .parse
  | .null => .ok none
  | .time t => .ok (some t)
  | .num _ => .error .parse

/-- The same strict parse applied to a weather-table cell, kept as a cell:
this is the in-place df['Timestamp'] = to_datetime(df['Timestamp'], ...)
conversion (string becomes a Timestamp value, NaN becomes NaT, an
already-converted Timestamp passes through). -/
def strictCoerceCell : Cell → Except Err Cell
  | .str s =>
    match parseHMSStr s with
    | some t => .ok (.time t)
    | none => .error .parse
  | .null => .ok .null
  | .time t => .ok (.time t)
  | .num _ => .error .parse

def cellTime? : Cell → Option Nat
  | .time t => some t
  | _ => none

/-- Absolute wall-clock difference in seconds; both operands live on the same
fixed date, so there is no wraparound across midnight. -/
def absDiff (a b : Nat) : Nat := if a ≤ b then b - a else a - b

/-- Series.idxmin with its value: first position holding the minimal non-NaN
value (ties keep the earlier position); none when no value is non-NaN. -/
def idxminV : List (Option Nat) → Option (Nat × Nat)
  | [] => none
  | none :: rest => (idxminV rest).map (fun p => (p.1 + 1, p.2))
  | some v :: rest =>
    match idxminV rest with
    | none => some (0, v)
    | some (j, w) => if v ≤ w then some (0, v) else some (j + 1, w)

def idxmin (l : List (Option Nat)) : Option Nat := (idxminV l).map (fun p => p.1)

/-- find_closest(row, df): parse the row's Timestamp, convert df's Timestamp
column in place, take the absolute differences and return the row of df at
idxmin together with the (mutated) df. -/
def find_closest (rowCols : List String) (row : List Cell) (df : DFrame) :
    Except Err (List Cell × DFrame) := do
  let ri ← exceptOfOption (uniqueIdx rowCols "Timestamp") .shape
  let rowTime ← strictParseRowTime (row.getD ri Cell.null)
  let ti ← exceptOfOption (uniqueIdx df.cols "Timestamp") .shape
  let newRows ← df.rows.mapM (fun r => do
    let c ← strictCoerceCell (r.getD ti Cell.null)
    pure (r.set ti c))
  let df' : DFrame := { df with rows := newRows }
  let diffs := newRows.map (fun r =>
    match cellTime? (r.getD ti Cell.null), rowTime with
    | some a, some b => some (absDiff a b)
    | _, _ => none)
  match idxmin diffs with
  | some i => .ok (df'.rows.getD i [], df')
  | none => .error .alignment

/-- garmin_df.apply(find_closest, axis=1): one nearest lookup per row in
order, threading the in-place mutation of the weather table. -/
def alignRows (cols : List String) (rows : List (List Cell)) (k : DFrame) :
    Except Err (List (List Cell) × DFrame) :=
  match rows with
  | [] => .ok ([], k)
  | r :: rs => do
    let (c, k1) ← find_closest cols r k
    let (cs, k2) ← alignRows cols rs k1
    .ok (c :: cs, k2)

/-- The normalization stage of process_garmin_sheet (its first three
statements): rename column 5, parse-and-format timestamps, drop unparseable
rows, all in place on the session table. -/
def garminProcessNorm (df : DFrame) : Except Err DFrame := do
  let g1 ← renameCol5 df
  let g2 ← coerceTsCol parseHMSStr g1
  dropnaTs g2

/-- process_garmin_sheet: normalize the session table in place, align each
remaining row, and concatenate row-wise. Returns the combined table together
with the final states of both (mutated) inputs. -/
def process_garmin_sheet (garmin kestrel : DFrame) :
    Except Err (DFrame × DFrame × DFrame) := do
  let g3 ← garminProcessNorm garmin
  let (closest, k') ← alignRows g3.cols g3.rows kestrel
  let combined : DFrame :=
    { cols := g3.cols ++ k'.cols,
      rows := List.zipWith (fun a b => a ++ b) g3.rows closest }
  .ok (combined, g3, k')

/-!
OutputComposer: unique output filename and workbook assembly.
-/

/-- Index of the last occurrence of a character. -/
def lastIdxOf (c : Char) (l : List Char) : Option Nat :=
  match l with
  | [] => none
  | a :: rest =>
    match lastIdxOf c rest with
    | some i => some (i + 1)
    | none => if a = c then some 0 else none

/-- os.path.splitext: split off the extension at the last dot of the final
path component, ignoring leading dots of that component. -/
def splitext (p : String) : String × String :=
  let cs := p.data
  let sepIdx := match lastIdxOf '/' cs with
    | some i => i + 1
    | none => 0
  match lastIdxOf '.' cs with
  | none => (p, "")
  | some di =>
    if (List.range di).any (fun j => decide (sepIdx ≤ j) && cs.getD j '.' ≠ '.') then
      (String.mk (cs.take di), String.mk (cs.drop di))
    else (p, "")

def dirname (p : String) : String :=
  match lastIdxOf '/' p.data with
  | none => ""
  | some i => String.mk (p.data.take i)

def joinPath (d f : String) : String := if d = "" then f else d ++ "/" ++ f

/-- One candidate filename: base ++ "_" ++ counter ++ extension. -/
def suffixedName (base ext : String) (counter : Nat) : String :=
  base ++ "_" ++ toString counter ++ ext

/-- The while loop of generate_unique_filename, with explicit fuel standing
for the finiteness of the file system (the loop always terminates on a real
disk because only finitely many paths exist). -/
def gufAux (ex : List String) (base ext : String) :
    Nat → Nat → String → Option String
  | 0, _, _ => none
  | fuel + 1, counter, cur =>
    if ex.contains cur then
      gufAux ex base ext fuel (counter + 1) (suffixedName base ext counter)
    else some cur

/-- generate_unique_filename over the set `ex` of paths that exist on disk. -/
def generate_unique_filename (ex : List String) (filepath : String) : Option String :=
  let (base, ext) := splitext filepath
  gufAux ex base ext (ex.length + 2) 1 filepath

/-- The fixed canonical header list of process_files. -/
def headersList : List String :=
  ["Shot Count", "Speed (MPS)", "Δ AVG (MPS)", "KE (J)", "Power Factor (N⋅s)", "Time",
   "Clean Bore", "Cold Bore", "Shot Notes", "Timestamp", "Temperature", "Relative Humidity",
   "Station Pressure", "Heat Index", "Dew Point", "Density Altitude", "Data Type", "Record name",
   "Start time", "Duration (H:M:S)", "Location description", "Location address",
   "Location coordinates", "Notes"]

/-- combined_df.columns = headers[:combined_df.shape[1]]: pandas raises when
the assigned list is shorter than the column count. -/
def assignHeaders (df : DFrame) : Except Err DFrame :=
  let hs := headersList.take df.cols.length
  if hs.length = df.cols.length then .ok { df with cols := hs }
  else .error .shape

/-- One sheet written to the output workbook: name, the combined table with
its assigned header, and the reserved row offset (startrow=5). -/
structure OutSheet where
  name : String
  table : DFrame
  startrow : Nat
deriving Repr, DecidableEq

def pairsOf : ReadResult → List (String × DFrame)
  | .sheets l => l
  | .single d => [("Sheet1", d)]

/-- The per-sheet alignment loop of process_files, threading the shared
weather DataFrame (whose in-place mutation persists across sheets). -/
def processAll (pairs : List (String × DFrame)) (k : DFrame) :
    Except Err (List (String × DFrame) × DFrame) :=
  match pairs with
  | [] => .ok ([], k)
  | (nm, g) :: rest => do
    let (comb, _, k') ← process_garmin_sheet g k
    let (others, k'') ← processAll rest k'
    .ok ((nm, comb) :: others, k'')

/-- process_files: read both files, align every sheet, and only then choose
the output path and write every sheet. A failure anywhere surfaces as the
run's single error and no output value is produced. -/
def process_files (kestrelFile garminFile : SrcFile) (existing : List String) :
    Except Err (String × List OutSheet) := do
  let kres ← read_file kestrelFile true
  let kdf ← match kres with
    | .single d => .ok d
    | .sheets _ => .error .ioErr
  let gres ← read_file garminFile false
  let pairs := pairsOf gres
  let (combos, _) ← processAll pairs kdf
  let outPath ← exceptOfOption
    (generate_unique_filename existing
      (joinPath (dirname kestrelFile.path) "Combined_Output.xlsx")) .ioErr
  let sheetsOut ← combos.mapM (fun p => do
    let c ← assignHeaders p.2
    pure (OutSheet.mk p.1 c 5))
  .ok (outPath, sheetsOut)

instance {ε α : Type} [DecidableEq ε] [DecidableEq α] : DecidableEq (Except ε α) := fun x y =>
  match x, y with
  | .ok a, .ok b =>
    if h : a = b then isTrue (by rw [h]) else isFalse (fun hh => by cases hh; exact h rfl)
  | .error a, .error b =>
    if h : a = b then isTrue (by rw [h]) else isFalse (fun hh => by cases hh; exact h rfl)
  | .ok _, .error _ => isFalse (fun hh => by cases hh)
  | .error _, .ok _ => isFalse (fun hh => by cases hh)


/-- The value a successful strict parse leaves in a weather Timestamp cell
(identity on cells the strict parse rejects, which cannot occur on a
success path). -/
def strictCellD (c : Cell) : Cell :=
  match strictCoerceCell c with
  | .ok c2 => c2
  | .error _ => c

/-- The weather table after find_closest's in-place conversion of its
Timestamp column at index ti. -/
def strictParseTable (ti : Nat) (df : DFrame) : DFrame :=
  { df with rows := df.rows.map (fun r => r.set ti (strictCellD (r.getD ti Cell.null))) }

/-- A normalized Timestamp cell: null, or the formatted HH:MM:SS string of a
time value. -/
def optTsCell : Option Nat → Cell
  | none => Cell.null
  | some t => Cell.str (formatHMSStr t)


/-- The composite normalization of one spreadsheet session sheet: the
read_file stage followed by the process_garmin_sheet stage. -/
def garminFullNormXlsx (df : DFrame) : Except Err DFrame := do
  let a ← normalizeGarminXlsxSheet df
  garminProcessNorm a

/-- True when a raw session row's position-5 timestamp text parses under
'%H:%M:%S'. -/
def tsParses5 (r : List Cell) : Bool :=
  match r.getD 5 Cell.null with
  | .str s => (parseHMSStr s).isSome
  | _ => false

/-- True when a raw weather row's position-0 timestamp text parses under
'%Y-%m-%d %I:%M:%S %p'. -/
def kestrelTsParses (r : List Cell) : Bool :=
  match r.getD 0 Cell.null with
  | .str s => (parseKestrelTsStr s).isSome
  | _ => false

/-- Shape invariant of a session sheet as read_file returns it: 9 columns,
a unique Timestamp column at position 5, and every timestamp cell either
null or an already-formatted HH:MM:SS string. -/
def ReadSheetInv (g : DFrame) : Prop :=
  g.cols.length = 9 ∧ uniqueIdx g.cols "Timestamp" = some 5 ∧
  ∀ r ∈ g.rows, r.length ≤ 9 ∧
    (r.getD 5 Cell.null = Cell.null ∨
      ∃ t, t < 86400 ∧ r.getD 5 Cell.null = Cell.str (formatHMSStr t))

/-- Shape invariant of a fully normalized session sheet (after the dropna):
as ReadSheetInv, but every timestamp cell is a formatted HH:MM:SS string. -/
def NormSheetInv (g : DFrame) : Prop :=
  g.cols.length = 9 ∧ uniqueIdx g.cols "Timestamp" = some 5 ∧
  ∀ r ∈ g.rows, r.length ≤ 9 ∧
    ∃ t, t < 86400 ∧ r.getD 5 Cell.null = Cell.str (formatHMSStr t)


/-- A raw weather CSV table whose single row has an unparseable timestamp. -/
def c3raw : DFrame :=
  { cols := ["h0","h1","h2","h3","h4","h5","h6","h7","h8","h9","h10","h11","h12","h13","h14"],
    rows := [[Cell.str "garbage", Cell.num 20, Cell.num 50, Cell.num 1000, Cell.num 1,
              Cell.num 2, Cell.num 3, Cell.num 4, Cell.num 5, Cell.num 6, Cell.num 7,
              Cell.num 8, Cell.num 9, Cell.num 10, Cell.num 11]] }

/-- The normalized form of c3raw: the unparseable row is kept with a null
timestamp, not dropped. -/
def c3norm : DFrame :=
  { cols := kestrelCsvNames,
    rows := [[Cell.null, Cell.num 20, Cell.num 50, Cell.num 1000, Cell.num 1,
              Cell.num 2, Cell.num 3, Cell.num 4, Cell.num 5, Cell.num 6, Cell.num 7,
              Cell.num 8, Cell.num 9, Cell.num 10, Cell.num 11]] }

/-- A raw weather CSV table whose single row has a parseable timestamp. -/
def c8raw : DFrame :=
  { cols := ["h0","h1","h2","h3","h4","h5","h6","h7","h8","h9","h10","h11","h12","h13","h14"],
    rows := [[Cell.str "2023-01-01 10:00:00 AM", Cell.num 20, Cell.num 50, Cell.num 1000,
              Cell.num 1, Cell.num 2, Cell.num 3, Cell.num 4, Cell.num 5, Cell.num 6,
              Cell.num 7, Cell.num 8, Cell.num 9, Cell.num 10, Cell.num 11]] }

/-- One weather normalization of c8raw. -/
def c8once : DFrame :=
  { cols := kestrelCsvNames,
    rows := [[Cell.str "10:00:00", Cell.num 20, Cell.num 50, Cell.num 1000, Cell.num 1,
              Cell.num 2, Cell.num 3, Cell.num 4, Cell.num 5, Cell.num 6, Cell.num 7,
              Cell.num 8, Cell.num 9, Cell.num 10, Cell.num 11]] }

/-- A second weather normalization of c8once: the formatted timestamp fails
the date format and becomes null. -/
def c8twice : DFrame :=
  { cols := kestrelCsvNames,
    rows := [[Cell.null, Cell.num 20, Cell.num 50, Cell.num 1000, Cell.num 1,
              Cell.num 2, Cell.num 3, Cell.num 4, Cell.num 5, Cell.num 6, Cell.num 7,
              Cell.num 8, Cell.num 9, Cell.num 10, Cell.num 11]] }

/-- A raw session sheet with one parseable and one malformed timestamp. -/
def gsheetRaw : DFrame :=
  { cols := ["a0","a1","a2","a3","a4","a5","a6","a7","a8"],
    rows := [[Cell.num 1, Cell.num 800, Cell.num 1, Cell.num 3000, Cell.num 5,
              Cell.str "10:00:04", Cell.num 0, Cell.num 0, Cell.str "ok"],
             [Cell.num 2, Cell.num 801, Cell.num 1, Cell.num 3001, Cell.num 5,
              Cell.str "bad ts", Cell.num 0, Cell.num 0, Cell.str "eh"]] }

/-- The fully normalized form of gsheetRaw: the malformed row is dropped. -/
def gsheetNorm : DFrame :=
  { cols := ["a0", "a1", "a2", "a3", "a4", "Timestamp", "a6", "a7", "a8"],
    rows := [[Cell.num 1, Cell.num 800, Cell.num 1, Cell.num 3000, Cell.num 5,
              Cell.str "10:00:04", Cell.num 0, Cell.num 0, Cell.str "ok"]] }

/-- A one-row session table fed to the aligner. -/
def c4g : DFrame :=
  { cols := ["a0","a1","a2","a3","a4","a5"],
    rows := [[Cell.num 1, Cell.num 2, Cell.num 3, Cell.num 4, Cell.num 5,
              Cell.str "10:00:02"]] }

/-- A one-row weather table fed to the aligner. -/
def c4k : DFrame :=
  { cols := ["Timestamp", "Temperature"],
    rows := [[Cell.str "10:00:00", Cell.num 20]] }

/-- The session table after alignment: renamed in place. -/
def c4gNorm : DFrame :=
  { cols := ["a0", "a1", "a2", "a3", "a4", "Timestamp"],
    rows := [[Cell.num 1, Cell.num 2, Cell.num 3, Cell.num 4, Cell.num 5,
              Cell.str "10:00:02"]] }

/-- The weather table after alignment: its Timestamp column was overwritten
in place with parsed time values. -/
def c4kMut : DFrame :=
  { cols := ["Timestamp", "Temperature"],
    rows := [[Cell.time 36000, Cell.num 20]] }

/-- The combined table of the c4 alignment. -/
def c4combined : DFrame :=
  { cols := ["a0", "a1", "a2", "a3", "a4", "Timestamp", "Timestamp", "Temperature"],
    rows := [[Cell.num 1, Cell.num 2, Cell.num 3, Cell.num 4, Cell.num 5,
              Cell.str "10:00:02", Cell.time 36000, Cell.num 20]] }


/-- A 15-column raw weather CSV header. -/
def kestrelCsvHeader : List String :=
  ["h0","h1","h2","h3","h4","h5","h6","h7","h8","h9","h10","h11","h12","h13","h14"]

/-- A raw weather CSV table with one parseable reading at 10:00:00. -/
def kGoodRaw : DFrame :=
  { cols := kestrelCsvHeader,
    rows := [[Cell.str "2023-01-01 10:00:00 AM", Cell.num 20, Cell.num 50, Cell.num 1000,
              Cell.num 1, Cell.num 2, Cell.num 3, Cell.num 4, Cell.num 5, Cell.num 6,
              Cell.num 7, Cell.num 8, Cell.num 9, Cell.num 10, Cell.num 11]] }

/-- A raw session CSV table with one shot at 10:00:04; the CSV session branch
requires the header to name its column 5 Timestamp. -/
def gShotsRaw : DFrame :=
  { cols := ["Shot","Speed","DAvg","KE","PF","Timestamp","CB1","CB2","Notes"],
    rows := [[Cell.num 1, Cell.num 800, Cell.num 1, Cell.num 3000, Cell.num 5,
              Cell.str "10:00:04", Cell.num 0, Cell.num 0, Cell.str "ok"]] }

/-- A weather CSV file whose table has no data rows. -/
def kfEmpty : SrcFile :=
  { path := "data/k.csv", content := .text { cols := kestrelCsvHeader, rows := [] } }

/-- A weather CSV file with one reading. -/
def kfGood : SrcFile := { path := "data/k.csv", content := .text kGoodRaw }

/-- A session CSV file with one shot. -/
def gfShots : SrcFile := { path := "data/g.csv", content := .text gShotsRaw }

/-- The empty normalized weather table read from kfEmpty. -/
def kdfEmptyNorm : DFrame := { cols := kestrelCsvNames, rows := [] }

/-- The single output sheet of the successful kfGood/gfShots run. -/
def out10 : List OutSheet :=
  [{ name := "Sheet1",
     table :=
      { cols := headersList,
        rows := [[Cell.num 1, Cell.num 800, Cell.num 1, Cell.num 3000, Cell.num 5,
                  Cell.str "10:00:04", Cell.num 0, Cell.num 0, Cell.str "ok",
                  Cell.time 36000, Cell.num 20, Cell.num 50, Cell.num 1000, Cell.num 1,
                  Cell.num 2, Cell.num 3, Cell.num 4, Cell.num 5, Cell.num 6, Cell.num 7,
                  Cell.num 8, Cell.num 9, Cell.num 10, Cell.num 11]] },
     startrow := 5 }]


/- Basic facts about the character-level codecs. -/

theorem digitOf_isDigit {d : Nat} (h : d < 10) : isDigitCh (digitOf d) = true := by
  interval_cases d <;> decide

theorem digitOf_val {d : Nat} (h : d < 10) : digitVal (digitOf d) = d := by
  interval_cases d <;> decide

theorem digitOf_ne_colon {d : Nat} (h : d < 10) : digitOf d ≠ ':' := by
  interval_cases d <;> decide

theorem digitOf_ne_space {d : Nat} (h : d < 10) : digitOf d ≠ ' ' := by
  interval_cases d <;> decide

theorem splitOnCh_ne_nil (sep : Char) (l : List Char) : splitOnCh sep l ≠ [] := by
  induction l with
  | nil => simp [splitOnCh]
  | cons c rest ih =>
    simp only [splitOnCh]
    by_cases hc : c = sep
    · simp [hc]
    · simp only [if_neg hc]
      cases h : splitOnCh sep rest with
      | nil => exact absurd h ih
      | cons a b => simp

theorem splitOnCh_no_sep {sep : Char} {l : List Char} (h : ∀ c ∈ l, c ≠ sep) :
    splitOnCh sep l = [l] := by
  induction l with
  | nil => rfl
  | cons c rest ih =>
    have hc : c ≠ sep := h c (List.mem_cons_self c rest)
    have hrest : splitOnCh sep rest = [rest] := ih (fun x hx => h x (List.mem_cons_of_mem c hx))
    simp [splitOnCh, hc, hrest]

theorem splitOnCh_append {sep : Char} {l : List Char} (rest : List Char)
    (h : ∀ c ∈ l, c ≠ sep) :
    splitOnCh sep (l ++ sep :: rest) = l :: splitOnCh sep rest := by
  induction l with
  | nil => simp [splitOnCh]
  | cons c l' ih =>
    have hc : c ≠ sep := h c (List.mem_cons_self c l')
    have := ih (fun x hx => h x (List.mem_cons_of_mem c hx))
    simp only [List.cons_append, splitOnCh, List.append_eq, this, if_neg hc]

theorem pad2_mem {n : Nat} {c : Char} (h : c ∈ pad2 n) : ∃ d, d < 10 ∧ c = digitOf d := by
  simp only [pad2, List.mem_cons, List.not_mem_nil, or_false] at h
  rcases h with h | h
  · exact ⟨n / 10 % 10, Nat.mod_lt _ (by omega), h⟩
  · exact ⟨n % 10, Nat.mod_lt _ (by omega), h⟩

theorem pad2_no_colon {n : Nat} : ∀ c ∈ pad2 n, c ≠ ':' := by
  intro c hc
  obtain ⟨d, hd, rfl⟩ := pad2_mem hc
  exact digitOf_ne_colon hd

theorem readNat2_pad2 {n : Nat} (h : n < 100) : readNat2 (pad2 n) = some n := by
  have h1 : n / 10 % 10 = n / 10 := by omega
  have h2 : n / 10 < 10 := by omega
  have h3 : n % 10 < 10 := by omega
  simp [readNat2, pad2, h1, digitOf_isDigit h2, digitOf_isDigit h3,
    digitOf_val h2, digitOf_val h3]
  omega

/-- Round trip: strftime('%H:%M:%S') output parses back under '%H:%M:%S'. -/
theorem parseHMS_formatHMS {t : Nat} (h : t < 86400) : parseHMS (formatHMS t) = some t := by
  have hsplit : splitOnCh ':' (formatHMS t) =
      [pad2 (t / 3600), pad2 (t % 3600 / 60), pad2 (t % 60)] := by
    unfold formatHMS
    rw [splitOnCh_append _ pad2_no_colon, splitOnCh_append _ pad2_no_colon,
      splitOnCh_no_sep pad2_no_colon]
  have hh : t / 3600 < 24 := by omega
  have hm : t % 3600 / 60 < 60 := by omega
  have hs : t % 60 < 60 := by omega
  simp [parseHMS, hsplit, readNat2_pad2 (by omega : t / 3600 < 100),
    readNat2_pad2 (by omega : t % 3600 / 60 < 100), readNat2_pad2 (by omega : t % 60 < 100),
    hh, hm, hs]
  omega

theorem formatHMS_no_space (t : Nat) : ∀ c ∈ formatHMS t, c ≠ ' ' := by
  intro c hc
  unfold formatHMS at hc
  simp only [List.mem_append, List.mem_cons] at hc
  rcases hc with h | h | h
  · obtain ⟨d, hd, rfl⟩ := pad2_mem h; exact digitOf_ne_space hd
  · subst h; decide
  · rcases h with h | h | h
    · obtain ⟨d, hd, rfl⟩ := pad2_mem h; exact digitOf_ne_space hd
    · subst h; decide
    · obtain ⟨d, hd, rfl⟩ := pad2_mem h; exact digitOf_ne_space hd

/-- An already-normalized 'HH:MM:SS' string does not parse under the weather
format '%Y-%m-%d %I:%M:%S %p': it has no space, so strptime fails. -/
theorem parseKestrelTs_formatHMS (t : Nat) : parseKestrelTs (formatHMS t) = none := by
  have : splitOnCh ' ' (formatHMS t) = [formatHMS t] :=
    splitOnCh_no_sep (formatHMS_no_space t)
  simp [parseKestrelTs, this]

/- List and lookup utilities. -/

theorem list_set_getD {α : Type} (l : List α) (i : Nat) (d : α) :
    l.set i (l.getD i d) = l := by
  induction l generalizing i with
  | nil => rfl
  | cons a rest ih =>
    cases i with
    | zero => simp [List.getD]
    | succ j =>
      show a :: rest.set j ((a :: rest).getD (j + 1) d) = a :: rest
      rw [List.getD_cons_succ]
      rw [ih j]

theorem list_getD_set_self {α : Type} (l : List α) (i : Nat) (v d : α) :
    (l.set i v).getD i d = if i < l.length then v else d := by
  induction l generalizing i with
  | nil => simp [List.getD]
  | cons a rest ih =>
    cases i with
    | zero => simp [List.getD]
    | succ j =>
      show (a :: rest.set j v).getD (j + 1) d = _
      rw [List.getD_cons_succ, ih j]
      simp [Nat.succ_lt_succ_iff]

theorem list_getD_set_ne {α : Type} (l : List α) {i j : Nat} (h : j ≠ i) (v d : α) :
    (l.set i v).getD j d = l.getD j d := by
  induction l generalizing i j with
  | nil => rfl
  | cons a rest ih =>
    cases i with
    | zero =>
      cases j with
      | zero => exact absurd rfl h
      | succ j' => simp [List.getD]
    | succ i' =>
      cases j with
      | zero => simp [List.getD]
      | succ j' =>
        show (a :: rest.set i' v).getD (j' + 1) d = _
        rw [List.getD_cons_succ, List.getD_cons_succ]
        exact ih (fun hh => h (by omega))

theorem list_getD_take {α : Type} (l : List α) {i n : Nat} (h : i < n) (d : α) :
    (l.take n).getD i d = l.getD i d := by
  induction l generalizing i n with
  | nil => simp
  | cons a rest ih =>
    cases n with
    | zero => omega
    | succ n' =>
      cases i with
      | zero => simp [List.getD]
      | succ i' =>
        show (rest.take n').getD i' d = _
        rw [List.getD_cons_succ]
        exact ih (by omega)

theorem uniqueIdx_get {l : List String} {nm : String} {i : Nat}
    (h : uniqueIdx l nm = some i) : l.get? i = some nm := by
  induction l generalizing i with
  | nil => simp [uniqueIdx] at h
  | cons c cs ih =>
    by_cases hc : c = nm
    · simp only [uniqueIdx, if_pos hc] at h
      by_cases hm : nm ∈ cs
      · simp [hm] at h
      · simp only [if_neg hm, Option.some.injEq] at h
        subst h
        simp [hc]
    · simp only [uniqueIdx, if_neg hc, Option.map_eq_some'] at h
      obtain ⟨i', hi', rfl⟩ := h
      simpa using ih hi'

theorem uniqueIdx_eq_of_get {l : List String} {nm : String} {i j : Nat}
    (h : uniqueIdx l nm = some i) (hj : l.get? j = some nm) : j = i := by
  induction l generalizing i j with
  | nil => simp [uniqueIdx] at h
  | cons c cs ih =>
    by_cases hc : c = nm
    · simp only [uniqueIdx, if_pos hc] at h
      by_cases hm : nm ∈ cs
      · simp [hm] at h
      · simp only [if_neg hm, Option.some.injEq] at h
        subst h
        cases j with
        | zero => rfl
        | succ j' =>
          simp only [List.get?] at hj
          exact absurd (List.get?_mem hj) hm
    · simp only [uniqueIdx, if_neg hc, Option.map_eq_some'] at h
      obtain ⟨i', hi', rfl⟩ := h
      cases j with
      | zero =>
        simp only [List.get?, Option.some.injEq] at hj
        exact absurd hj hc
      | succ j' =>
        simp only [List.get?] at hj
        exact congrArg (· + 1) (ih hi' hj)

/- Series.idxmin facts: membership, minimality, first-wins tie-break. -/

theorem idxminV_isSome {l : List (Option Nat)} {k w : Nat}
    (h : l.get? k = some (some w)) : (idxminV l).isSome = true := by
  induction l generalizing k with
  | nil => simp at h
  | cons a rest ih =>
    cases a with
    | none =>
      cases k with
      | zero => simp at h
      | succ k' =>
        simp only [List.get?] at h
        have := ih h
        cases hr : idxminV rest with
        | none => rw [hr] at this; simp at this
        | some p => simp [idxminV, hr]
    | some v =>
      simp only [idxminV]
      cases hrest : idxminV rest with
      | none => simp
      | some p =>
        obtain ⟨j, w'⟩ := p
        by_cases hle : v ≤ w' <;> simp [hle]

theorem idxminV_get {l : List (Option Nat)} {j v : Nat}
    (h : idxminV l = some (j, v)) : l.get? j = some (some v) := by
  induction l generalizing j v with
  | nil => simp [idxminV] at h
  | cons a rest ih =>
    cases a with
    | none =>
      simp only [idxminV, Option.map_eq_some'] at h
      obtain ⟨⟨j', v'⟩, hj', heq⟩ := h
      simp only [Prod.mk.injEq] at heq
      obtain ⟨rfl, rfl⟩ := heq
      simpa using ih hj'
    | some w =>
      simp only [idxminV] at h
      cases hrest : idxminV rest with
      | none =>
        rw [hrest] at h
        simp only [Option.some.injEq, Prod.mk.injEq] at h
        obtain ⟨rfl, rfl⟩ := h
        simp
      | some p =>
        obtain ⟨j', w'⟩ := p
        rw [hrest] at h
        by_cases hle : w ≤ w'
        · simp only [if_pos hle, Option.some.injEq, Prod.mk.injEq] at h
          obtain ⟨rfl, rfl⟩ := h
          simp
        · simp only [if_neg hle, Option.some.injEq, Prod.mk.injEq] at h
          obtain ⟨rfl, rfl⟩ := h
          simpa using ih hrest

theorem idxminV_min {l : List (Option Nat)} {j v : Nat}
    (h : idxminV l = some (j, v)) :
    ∀ k w, l.get? k = some (some w) → v ≤ w := by
  induction l generalizing j v with
  | nil => simp [idxminV] at h
  | cons a rest ih =>
    cases a with
    | none =>
      simp only [idxminV, Option.map_eq_some'] at h
      obtain ⟨⟨j', v'⟩, hj', heq⟩ := h
      simp only [Prod.mk.injEq] at heq
      obtain ⟨rfl, rfl⟩ := heq
      intro k w hk
      cases k with
      | zero => simp at hk
      | succ k' =>
        simp only [List.get?] at hk
        exact ih hj' k' w hk
    | some a' =>
      simp only [idxminV] at h
      cases hrest : idxminV rest with
      | none =>
        rw [hrest] at h
        simp only [Option.some.injEq, Prod.mk.injEq] at h
        obtain ⟨rfl, rfl⟩ := h
        intro k w hk
        cases k with
        | zero =>
          simp only [List.get?, Option.some.injEq] at hk
          omega
        | succ k' =>
          simp only [List.get?] at hk
          have := idxminV_isSome hk
          rw [hrest] at this
          simp at this
      | some p =>
        obtain ⟨j', w'⟩ := p
        rw [hrest] at h
        by_cases hle : a' ≤ w'
        · simp only [if_pos hle, Option.some.injEq, Prod.mk.injEq] at h
          obtain ⟨rfl, rfl⟩ := h
          intro k w hk
          cases k with
          | zero =>
            simp only [List.get?, Option.some.injEq, Option.some.injEq] at hk
            omega
          | succ k' =>
            simp only [List.get?] at hk
            exact le_trans hle (ih hrest k' w hk)
        · simp only [if_neg hle, Option.some.injEq, Prod.mk.injEq] at h
          obtain ⟨rfl, rfl⟩ := h
          intro k w hk
          cases k with
          | zero =>
            simp only [List.get?, Option.some.injEq, Option.some.injEq] at hk
            omega
          | succ k' =>
            simp only [List.get?] at hk
            exact ih hrest k' w hk

theorem idxminV_first {l : List (Option Nat)} {j v : Nat}
    (h : idxminV l = some (j, v)) :
    ∀ k w, k < j → l.get? k = some (some w) → v < w := by
  induction l generalizing j v with
  | nil => simp [idxminV] at h
  | cons a rest ih =>
    cases a with
    | none =>
      simp only [idxminV, Option.map_eq_some'] at h
      obtain ⟨⟨j', v'⟩, hj', heq⟩ := h
      simp only [Prod.mk.injEq] at heq
      obtain ⟨rfl, rfl⟩ := heq
      intro k w hk hget
      cases k with
      | zero => simp at hget
      | succ k' =>
        simp only [List.get?] at hget
        exact ih hj' k' w (by omega) hget
    | some a' =>
      simp only [idxminV] at h
      cases hrest : idxminV rest with
      | none =>
        rw [hrest] at h
        simp only [Option.some.injEq, Prod.mk.injEq] at h
        obtain ⟨rfl, rfl⟩ := h
        intro k w hk _
        omega
      | some p =>
        obtain ⟨j', w'⟩ := p
        rw [hrest] at h
        by_cases hle : a' ≤ w'
        · simp only [if_pos hle, Option.some.injEq, Prod.mk.injEq] at h
          obtain ⟨rfl, rfl⟩ := h
          intro k w hk _
          omega
        · simp only [if_neg hle, Option.some.injEq, Prod.mk.injEq] at h
          obtain ⟨rfl, rfl⟩ := h
          intro k w hk hget
          cases k with
          | zero =>
            simp only [List.get?, Option.some.injEq, Option.some.injEq] at hget
            omega
          | succ k' =>
            exact ih hrest k' w (by omega) hget

/- Except/mapM helpers. -/

theorem mapM_ok_of_forall {α β : Type} {f : α → Except Err β} {g : α → β} {l : List α}
    (h : ∀ x ∈ l, f x = .ok (g x)) : l.mapM f = .ok (l.map g) := by
  induction l with
  | nil => rfl
  | cons a rest ih =>
    rw [List.mapM_cons, h a (List.mem_cons_self a rest),
      ih (fun x hx => h x (List.mem_cons_of_mem a hx))]
    rfl

theorem mapM_ok_elim {α β : Type} {f : α → Except Err β} {g : α → β} {l : List α} {ys : List β}
    (h : l.mapM f = .ok ys) (hf : ∀ x y, f x = .ok y → y = g x) : ys = l.map g := by
  induction l generalizing ys with
  | nil => exact (Except.ok.inj h).symm
  | cons a rest ih =>
    rw [List.mapM_cons] at h
    cases ha : f a with
    | error e => rw [ha] at h; exact absurd h (by simp [Bind.bind, Except.bind])
    | ok b =>
      rw [ha] at h
      cases hrest : rest.mapM f with
      | error e =>
        rw [hrest] at h
        exact absurd h (by simp [Bind.bind, Except.bind])
      | ok bs =>
        rw [hrest] at h
        have h2 : b :: bs = ys := Except.ok.inj h
        rw [List.map_cons, ← hf a b ha, ← ih hrest, h2]

theorem mapM_ok_mem {α β : Type} {f : α → Except Err β} {l : List α} {ys : List β}
    (h : l.mapM f = .ok ys) : ∀ x ∈ l, ∃ y, f x = .ok y := by
  induction l generalizing ys with
  | nil => intro x hx; simp at hx
  | cons a rest ih =>
    rw [List.mapM_cons] at h
    cases ha : f a with
    | error e => rw [ha] at h; exact absurd h (by simp [Bind.bind, Except.bind])
    | ok b =>
      rw [ha] at h
      cases hrest : rest.mapM f with
      | error e =>
        rw [hrest] at h
        exact absurd h (by simp [Bind.bind, Except.bind])
      | ok bs =>
        intro x hx
        rcases List.mem_cons.mp hx with rfl | hx'
        · exact ⟨b, ha⟩
        · exact ih hrest x hx'

/- Unique-filename loop: the returned path is free, and collisions are
resolved by the smallest unused counter. -/

theorem gufAux_spec (ex : List String) (base ext : String) :
    ∀ fuel counter cur q, gufAux ex base ext fuel counter cur = some q →
      ex.contains q = false ∧
      (q = cur ∨ (ex.contains cur = true ∧ ∃ k, counter ≤ k ∧ q = suffixedName base ext k ∧
        (∀ j, counter ≤ j → j < k → ex.contains (suffixedName base ext j) = true))) := by
  intro fuel
  induction fuel with
  | zero => intro counter cur q h; simp [gufAux] at h
  | succ fuel ih =>
    intro counter cur q h
    by_cases hcur : ex.contains cur = true
    · simp only [gufAux, hcur, if_true] at h
      obtain ⟨hfree, hdisj⟩ := ih (counter + 1) (suffixedName base ext counter) q h
      refine ⟨hfree, .inr ⟨hcur, ?_⟩⟩
      rcases hdisj with rfl | ⟨hcur', k, hk1, hk2, hk3⟩
      · exact ⟨counter, le_refl _, rfl, fun j h1 h2 => absurd h1 (by omega)⟩
      · refine ⟨k, by omega, hk2, fun j h1 h2 => ?_⟩
        rcases Nat.eq_or_lt_of_le h1 with rfl | hlt
        · exact hcur'
        · exact hk3 j (by omega) h2
    · simp only [gufAux, hcur, if_false] at h
      rw [Bool.not_eq_true] at hcur
      cases h
      exact ⟨hcur, .inl rfl⟩

/-- Claim C6: generate_unique_filename never returns a path that exists at
call time, and when the given path itself already exists the result is the
base path suffixed with the smallest unused counter k ≥ 1 (every smaller
suffix ≥ 1 collides). -/
theorem claim6 (ex : List String) (p q : String)
    (h : generate_unique_filename ex p = some q) :
    ex.contains q = false ∧
    (ex.contains p = true →
      ∃ k, 1 ≤ k ∧ q = suffixedName (splitext p).1 (splitext p).2 k ∧
        ∀ j, 1 ≤ j → j < k →
          ex.contains (suffixedName (splitext p).1 (splitext p).2 j) = true) := by
  have h' : gufAux ex (splitext p).1 (splitext p).2 (ex.length + 2) 1 p = some q := by
    rw [generate_unique_filename] at h
    exact h
  obtain ⟨hfree, hdisj⟩ := gufAux_spec ex (splitext p).1 (splitext p).2 (ex.length + 2) 1 p q h'
  refine ⟨hfree, fun hp => ?_⟩
  rcases hdisj with rfl | ⟨_, k, hk1, hk2, hk3⟩
  · rw [hp] at hfree; cases hfree
  · exact ⟨k, hk1, hk2, hk3⟩

/-- Witness for C6, the spec's Scenario E: with Combined_Output.xlsx and
Combined_Output_1.xlsx present, the run picks Combined_Output_2.xlsx. -/
theorem claim6_witness :
    generate_unique_filename ["Combined_Output.xlsx", "Combined_Output_1.xlsx"]
        "Combined_Output.xlsx" = some "Combined_Output_2.xlsx" ∧
    (["Combined_Output.xlsx", "Combined_Output_1.xlsx"] : List String).contains
        "Combined_Output_2.xlsx" = false ∧
    ∃ k, 1 ≤ k ∧ "Combined_Output_2.xlsx" =
        suffixedName (splitext "Combined_Output.xlsx").1 (splitext "Combined_Output.xlsx").2 k ∧
      ∀ j, 1 ≤ j → j < k →
        (["Combined_Output.xlsx", "Combined_Output_1.xlsx"] : List String).contains
          (suffixedName (splitext "Combined_Output.xlsx").1 (splitext "Combined_Output.xlsx").2 j) = true := by
  have h : generate_unique_filename ["Combined_Output.xlsx", "Combined_Output_1.xlsx"]
      "Combined_Output.xlsx" = some "Combined_Output_2.xlsx" := by decide
  have h2 := claim6 ["Combined_Output.xlsx", "Combined_Output_1.xlsx"]
    "Combined_Output.xlsx" "Combined_Output_2.xlsx" h
  exact ⟨h, h2.1, h2.2 (by decide)⟩

/-- Claim C7: the header row assigned to a combined table that is written out
has exactly as many names as the table has columns, and is exactly the
leading prefix of that length of the fixed canonical header list; the data
rows are unchanged. -/
theorem claim7 (df df' : DFrame) (h : assignHeaders df = .ok df') :
    df'.cols.length = df.cols.length ∧
    df'.cols = headersList.take df.cols.length ∧
    df'.rows = df.rows := by
  unfold assignHeaders at h
  by_cases hc : (headersList.take df.cols.length).length = df.cols.length
  · simp only [hc, if_true, Except.ok.injEq] at h
    subst h
    exact ⟨hc, rfl, rfl⟩
  · simp only [hc, if_false] at h
    cases h

/-- Witness for C7: a combined table with three populated columns receives
exactly the first three canonical header names. -/
theorem claim7_witness :
    assignHeaders { cols := ["a", "b", "c"], rows := [[Cell.num 1, Cell.num 2, Cell.num 3]] }
        = .ok { cols := ["Shot Count", "Speed (MPS)", "Δ AVG (MPS)"],
                rows := [[Cell.num 1, Cell.num 2, Cell.num 3]] } ∧
    (["Shot Count", "Speed (MPS)", "Δ AVG (MPS)"] : List String).length
        = (["a", "b", "c"] : List String).length ∧
    (["Shot Count", "Speed (MPS)", "Δ AVG (MPS)"] : List String) = headersList.take 3 := by
  have h : assignHeaders { cols := ["a", "b", "c"], rows := [[Cell.num 1, Cell.num 2, Cell.num 3]] }
      = .ok { cols := ["Shot Count", "Speed (MPS)", "Δ AVG (MPS)"],
              rows := [[Cell.num 1, Cell.num 2, Cell.num 3]] } := by decide
  have h2 := claim7 _ _ h
  exact ⟨h, h2.1, h2.2.1⟩

/- Cell-level facts for the strict conversion in find_closest. -/

theorem list_getD_of_le {α : Type} {l : List α} {i : Nat} (h : l.length ≤ i) (d : α) :
    l.getD i d = d := by
  induction l generalizing i with
  | nil => rfl
  | cons a rest ih =>
    cases i with
    | zero => simp at h
    | succ j =>
      rw [List.getD_cons_succ]
      exact ih (by simpa using h)

theorem strictCoerce_optTsCell {o : Option Nat} (hb : ∀ u, o = some u → u < 86400) :
    strictCoerceCell (optTsCell o) =
      .ok (match o with | none => Cell.null | some u => Cell.time u) := by
  cases o with
  | none => rfl
  | some u =>
    have : parseHMSStr (formatHMSStr u) = some u := parseHMS_formatHMS (hb u rfl)
    simp [optTsCell, strictCoerceCell, this]

theorem strictCellD_optTsCell {o : Option Nat} (hb : ∀ u, o = some u → u < 86400) :
    strictCellD (optTsCell o) =
      (match o with | none => Cell.null | some u => Cell.time u) := by
  rw [strictCellD, strictCoerce_optTsCell hb]

theorem strictCellD_optTsCell_some {u : Nat} (hu : u < 86400) :
    strictCellD (optTsCell (some u)) = Cell.time u := by
  have : parseHMSStr (formatHMSStr u) = some u := parseHMS_formatHMS hu
  simp [strictCellD, strictCoerceCell, optTsCell, this]

theorem mapMEl_of_optTsCell {r : List Cell} {ti : Nat} {o : Option Nat}
    (hr : r.getD ti Cell.null = optTsCell o) (hb : ∀ u, o = some u → u < 86400) :
    (do
      let c ← strictCoerceCell (r.getD ti Cell.null)
      pure (r.set ti c) : Except Err (List Cell))
      = .ok (r.set ti (strictCellD (r.getD ti Cell.null))) := by
  rw [hr, strictCoerce_optTsCell hb, strictCellD_optTsCell hb]
  rfl

theorem cellTime_g_of_optTsCell {r : List Cell} {ti : Nat} {o : Option Nat}
    (hr : r.getD ti Cell.null = optTsCell o) (hb : ∀ u, o = some u → u < 86400) :
    cellTime? ((r.set ti (strictCellD (r.getD ti Cell.null))).getD ti Cell.null) = o := by
  rw [hr, strictCellD_optTsCell hb]
  cases o with
  | none =>
    rw [list_getD_set_self]
    by_cases hlt : ti < r.length
    · simp [hlt, cellTime?]
    · simp [hlt, cellTime?]
  | some u =>
    have hlt : ti < r.length := by
      by_contra hge
      rw [list_getD_of_le (by omega)] at hr
      simp [optTsCell, formatHMSStr] at hr
    rw [list_getD_set_self]
    simp [hlt, cellTime?]

theorem aligned_rows_mapM {ti : Nat} :
    ∀ (rows : List (List Cell)) (cells : List (Option Nat)),
      rows.map (fun r => r.getD ti Cell.null) = cells.map optTsCell →
      (∀ u, some u ∈ cells → u < 86400) →
      rows.mapM (fun r => do
          let c ← strictCoerceCell (r.getD ti Cell.null)
          pure (r.set ti c))
        = .ok (rows.map (fun r => r.set ti (strictCellD (r.getD ti Cell.null)))) := by
  intro rows cells hts hb
  apply mapM_ok_of_forall
  intro r hr
  have : r.getD ti Cell.null ∈ cells.map optTsCell := by
    rw [← hts]
    exact List.mem_map_of_mem _ hr
  obtain ⟨o, ho, heq⟩ := List.mem_map.mp this
  exact mapMEl_of_optTsCell heq.symm (fun u hu => hb u (hu ▸ ho))

theorem aligned_diffs_map {ti q : Nat} :
    ∀ (rows : List (List Cell)) (cells : List (Option Nat)),
      rows.map (fun r => r.getD ti Cell.null) = cells.map optTsCell →
      (∀ u, some u ∈ cells → u < 86400) →
      (rows.map (fun r => r.set ti (strictCellD (r.getD ti Cell.null)))).map
          (fun r => match cellTime? (r.getD ti Cell.null), (some q : Option Nat) with
            | some a, some b => some (absDiff a b)
            | _, _ => none)
        = cells.map (fun o => o.map (fun u => absDiff u q)) := by
  intro rows
  induction rows with
  | nil =>
    intro cells hts _
    cases cells with
    | nil => rfl
    | cons o os => simp at hts
  | cons r rest ih =>
    intro cells hts hb
    cases cells with
    | nil => simp at hts
    | cons o os =>
      simp only [List.map_cons, List.cons.injEq] at hts
      obtain ⟨h1, h2⟩ := hts
      have hbo : ∀ u, o = some u → u < 86400 := fun u hu => hb u (hu ▸ List.mem_cons_self o os)
      have hbos : ∀ u, some u ∈ os → u < 86400 := fun u hu => hb u (List.mem_cons_of_mem o hu)
      simp only [List.map_cons, List.cons.injEq]
      constructor
      · rw [cellTime_g_of_optTsCell h1 hbo]
        cases o with
        | none => rfl
        | some u => rfl
      · exact ih os h2 hbos

theorem find_closest_spec {rowCols : List String} {row : List Cell} {df : DFrame}
    {ri ti q : Nat} {cells : List (Option Nat)}
    (hri : uniqueIdx rowCols "Timestamp" = some ri)
    (hrow : row.getD ri Cell.null = Cell.str (formatHMSStr q)) (hq : q < 86400)
    (hti : uniqueIdx df.cols "Timestamp" = some ti)
    (hts : df.rows.map (fun r => r.getD ti Cell.null) = cells.map optTsCell)
    (hb : ∀ u, some u ∈ cells → u < 86400)
    {k t : Nat} (hsome : cells.get? k = some (some t)) :
    ∃ i u, cells.get? i = some (some u) ∧
      find_closest rowCols row df =
        .ok ((strictParseTable ti df).rows.getD i [], strictParseTable ti df) ∧
      (strictParseTable ti df).rows.getD i [] =
        (df.rows.getD i []).set ti (Cell.time u) ∧
      (∀ j w, cells.get? j = some (some w) → absDiff u q ≤ absDiff w q) ∧
      (∀ j w, j < i → cells.get? j = some (some w) → absDiff u q < absDiff w q) := by
  have hrowOK : strictParseRowTime (row.getD ri Cell.null) = .ok (some q) := by
    rw [hrow]
    simp [strictParseRowTime, parseHMSStr, formatHMSStr, parseHMS_formatHMS hq]
  have hmapM := aligned_rows_mapM df.rows cells hts hb
  have hdiffs := aligned_diffs_map (q := q) df.rows cells hts hb
  have hlen : df.rows.length = cells.length := by
    have := congrArg List.length hts
    simpa using this
  simp only [Bind.bind, Except.bind] at hmapM
  simp only [find_closest, hri, hti, exceptOfOption, hrowOK, Bind.bind, Except.bind, hmapM,
    hdiffs]
  have hdget : (cells.map (fun o => Option.map (fun u => absDiff u q) o)).get? k
      = some (some (absDiff t q)) := by
    rw [List.get?_map, hsome]
    rfl
  obtain ⟨⟨i0, v⟩, hidx⟩ := Option.isSome_iff_exists.mp (idxminV_isSome hdget)
  have hgot := idxminV_get hidx
  rw [List.get?_map] at hgot
  obtain ⟨o, ho, hFo⟩ := Option.map_eq_some'.mp hgot
  cases o with
  | none => simp at hFo
  | some u =>
    simp only [Option.map_some', Option.some.injEq] at hFo
    have hi0lt : i0 < cells.length := by
      by_contra hge
      rw [List.get?_eq_none.mpr (by omega)] at ho
      cases ho
    have hrowi : df.rows.get? i0 = some ((df.rows.getD i0 [])) := by
      have : i0 < df.rows.length := by omega
      rw [List.getD_eq_getElem?_getD, List.get?_eq_getElem?]
      cases hg : df.rows[i0]? with
      | none => rw [List.getElem?_eq_none_iff] at hg; omega
      | some r => rfl
    have hcelli : (df.rows.getD i0 []).getD ti Cell.null = optTsCell (some u) := by
      have := congrArg (fun l => l.get? i0) hts
      simp only [List.get?_map] at this
      rw [hrowi, ho] at this
      simpa using this
    refine ⟨i0, u, ho, ?_⟩
    rw [idxmin, hidx]
    have houtrow : (strictParseTable ti df).rows.getD i0 []
        = (df.rows.getD i0 []).set ti (Cell.time u) := by
      have hmap : (strictParseTable ti df).rows.get? i0
          = some ((df.rows.getD i0 []).set ti (strictCellD ((df.rows.getD i0 []).getD ti Cell.null))) := by
        simp only [strictParseTable, List.get?_map, hrowi, Option.map_some']
      have hu86 : u < 86400 := hb u (List.get?_mem ho)
      rw [List.getD_eq_getElem?_getD, ← List.get?_eq_getElem?, hmap]
      rw [hcelli, strictCellD_optTsCell_some hu86]
      rfl
    refine ⟨rfl, houtrow, ?_, ?_⟩
    · intro j w hj
      have : (cells.map (fun o => Option.map (fun u => absDiff u q) o)).get? j
          = some (some (absDiff w q)) := by
        rw [List.get?_map, hj]
        rfl
      have := idxminV_min hidx j (absDiff w q) this
      omega
    · intro j w hjlt hj
      have : (cells.map (fun o => Option.map (fun u => absDiff u q) o)).get? j
          = some (some (absDiff w q)) := by
        rw [List.get?_map, hj]
        rfl
      have := idxminV_first hidx j (absDiff w q) hjlt this
      omega

/-- Claim C1: on a weather table whose readings all carry a (normalized)
time-of-day, the nearest lookup for a query time q succeeds and returns the
reading at the position i whose time u minimizes the absolute wall-clock
difference in seconds to q (computed on a common date, so with no wraparound
across midnight); every other reading's difference is at least as large, and
every reading at a position below i has a strictly larger difference, so
ties resolve to the lowest row position. -/
theorem claim1 (df : DFrame) (rowCols : List String) (row : List Cell)
    (ri ti q : Nat) (times : List Nat)
    (hri : uniqueIdx rowCols "Timestamp" = some ri)
    (hrow : row.getD ri Cell.null = Cell.str (formatHMSStr q)) (hq : q < 86400)
    (hti : uniqueIdx df.cols "Timestamp" = some ti)
    (hts : df.rows.map (fun r => r.getD ti Cell.null)
        = times.map (fun t => Cell.str (formatHMSStr t)))
    (hbound : ∀ t ∈ times, t < 86400)
    (hne : times ≠ []) :
    ∃ i u, times.get? i = some u ∧
      find_closest rowCols row df =
        .ok ((strictParseTable ti df).rows.getD i [], strictParseTable ti df) ∧
      (strictParseTable ti df).rows.getD i [] = (df.rows.getD i []).set ti (Cell.time u) ∧
      (∀ j w, times.get? j = some w → absDiff u q ≤ absDiff w q) ∧
      (∀ j w, j < i → times.get? j = some w → absDiff u q < absDiff w q) := by
  have hts' : df.rows.map (fun r => r.getD ti Cell.null)
      = (times.map some).map optTsCell := by
    rw [List.map_map]
    exact hts
  have hb' : ∀ u, some u ∈ times.map some → u < 86400 := by
    intro u hu
    obtain ⟨t, ht, heq⟩ := List.mem_map.mp hu
    obtain rfl := Option.some.inj heq
    exact hbound t ht
  obtain ⟨t0, rest, rfl⟩ : ∃ t0 rest, times = t0 :: rest := by
    cases times with
    | nil => exact absurd rfl hne
    | cons a b => exact ⟨a, b, rfl⟩
  have hsome : ((t0 :: rest).map some).get? 0 = some (some t0) := rfl
  obtain ⟨i, u, ho, hres, hout, hmin, hfirst⟩ :=
    find_closest_spec hri hrow hq hti hts' hb' hsome
  rw [List.get?_map] at ho
  obtain ⟨w, hw, hweq⟩ := Option.map_eq_some'.mp ho
  cases hweq
  refine ⟨i, u, hw, hres, hout, ?_, ?_⟩
  · intro j w2 hj
    refine hmin j w2 ?_
    rw [List.get?_map, hj]
    rfl
  · intro j w2 hjlt hj
    refine hfirst j w2 hjlt ?_
    rw [List.get?_map, hj]
    rfl

/-- Witness for C1, the spec's Scenario A: readings at 10:00:00 and 10:00:10,
query 10:00:04; the lookup succeeds and the minimizing reading exists at the
position given by the theorem. -/
theorem claim1_witness :
    ∃ i u, [36000, 36010].get? i = some u ∧
      find_closest ["Shot", "Timestamp"] [Cell.num 1, Cell.str "10:00:04"]
          { cols := ["Timestamp", "Temperature"],
            rows := [[Cell.str "10:00:00", Cell.num 20],
                     [Cell.str "10:00:10", Cell.num 21]] } =
        .ok ((strictParseTable 0
              { cols := ["Timestamp", "Temperature"],
                rows := [[Cell.str "10:00:00", Cell.num 20],
                         [Cell.str "10:00:10", Cell.num 21]] }).rows.getD i [],
             strictParseTable 0
              { cols := ["Timestamp", "Temperature"],
                rows := [[Cell.str "10:00:00", Cell.num 20],
                         [Cell.str "10:00:10", Cell.num 21]] }) ∧
      (strictParseTable 0
          { cols := ["Timestamp", "Temperature"],
            rows := [[Cell.str "10:00:00", Cell.num 20],
                     [Cell.str "10:00:10", Cell.num 21]] }).rows.getD i [] =
        (({ cols := ["Timestamp", "Temperature"],
            rows := [[Cell.str "10:00:00", Cell.num 20],
                     [Cell.str "10:00:10", Cell.num 21]] } : DFrame).rows.getD i []).set 0
          (Cell.time u) ∧
      (∀ j w, [36000, 36010].get? j = some w → absDiff u 36004 ≤ absDiff w 36004) ∧
      (∀ j w, j < i → [36000, 36010].get? j = some w → absDiff u 36004 < absDiff w 36004) :=
  claim1
    { cols := ["Timestamp", "Temperature"],
      rows := [[Cell.str "10:00:00", Cell.num 20], [Cell.str "10:00:10", Cell.num 21]] }
    ["Shot", "Timestamp"] [Cell.num 1, Cell.str "10:00:04"]
    1 0 36004 [36000, 36010]
    (by decide) (by decide) (by decide) (by decide) (by decide) (by decide) (by decide)

/-- Claim C9: on a weather table with at least one parseable timestamp, the
nearest lookup succeeds and never returns a reading whose timestamp failed
to parse: the returned reading sits at a position whose timestamp parsed,
and its Timestamp cell holds a valid time value. -/
theorem claim9 (df : DFrame) (rowCols : List String) (row : List Cell)
    (ri ti q : Nat) (cells : List (Option Nat))
    (hri : uniqueIdx rowCols "Timestamp" = some ri)
    (hrow : row.getD ri Cell.null = Cell.str (formatHMSStr q)) (hq : q < 86400)
    (hti : uniqueIdx df.cols "Timestamp" = some ti)
    (hts : df.rows.map (fun r => r.getD ti Cell.null) = cells.map optTsCell)
    (hb : ∀ u, some u ∈ cells → u < 86400)
    (hsome : ∃ k t, cells.get? k = some (some t)) :
    ∃ i u out, find_closest rowCols row df = .ok (out, strictParseTable ti df) ∧
      cells.get? i = some (some u) ∧
      out.getD ti Cell.null = Cell.time u := by
  obtain ⟨k, t, hk⟩ := hsome
  obtain ⟨i, u, ho, hres, hout, _, _⟩ := find_closest_spec hri hrow hq hti hts hb hk
  refine ⟨i, u, _, hres, ho, ?_⟩
  rw [hout]
  have hilt : i < cells.length := by
    by_contra hge
    rw [List.get?_eq_none.mpr (by omega)] at ho
    cases ho
  have hlen : df.rows.length = cells.length := by
    have := congrArg List.length hts
    simpa using this
  have hrowi : df.rows.get? i = some (df.rows.getD i []) := by
    rw [List.getD_eq_getElem?_getD, List.get?_eq_getElem?]
    cases hg : df.rows[i]? with
    | none => rw [List.getElem?_eq_none_iff] at hg; omega
    | some r => rfl
  have hcelli : (df.rows.getD i []).getD ti Cell.null = optTsCell (some u) := by
    have := congrArg (fun l => l.get? i) hts
    simp only [List.get?_map] at this
    rw [hrowi, ho] at this
    simpa using this
  have hlt : ti < (df.rows.getD i []).length := by
    by_contra hge
    rw [list_getD_of_le (by omega)] at hcelli
    simp [optTsCell, formatHMSStr] at hcelli
  rw [list_getD_set_self]
  simp only [List.getD_eq_getElem?_getD] at hlt
  simp [hlt]

/-- Witness for C9: the first weather row's timestamp is unparseable (null
after normalization); the lookup returns the valid second reading. -/
theorem claim9_witness :
    ∃ i u out,
      find_closest ["Shot", "Timestamp"] [Cell.num 1, Cell.str "10:00:04"]
          { cols := ["Timestamp", "Temperature"],
            rows := [[Cell.null, Cell.num 19], [Cell.str "10:00:10", Cell.num 21]] } =
        .ok (out, strictParseTable 0
          { cols := ["Timestamp", "Temperature"],
            rows := [[Cell.null, Cell.num 19], [Cell.str "10:00:10", Cell.num 21]] }) ∧
      ([none, some 36010] : List (Option Nat)).get? i = some (some u) ∧
      out.getD 0 Cell.null = Cell.time u :=
  claim9
    { cols := ["Timestamp", "Temperature"],
      rows := [[Cell.null, Cell.num 19], [Cell.str "10:00:10", Cell.num 21]] }
    ["Shot", "Timestamp"] [Cell.num 1, Cell.str "10:00:04"]
    1 0 36004 [none, some 36010]
    (by decide) (by decide) (by decide) (by decide) (by decide)
    (by intro u hu; simp at hu; omega)
    ⟨1, 36010, by decide⟩

/- Success-shape lemmas for the table operations. -/

theorem usecolsN_ok_elim {n : Nat} {df e : DFrame} (h : usecolsN n df = .ok e) :
    n ≤ df.cols.length ∧
    e = { cols := df.cols.take n, rows := df.rows.map (fun r => r.take n) } := by
  unfold usecolsN at h
  by_cases hc : n ≤ df.cols.length
  · simp only [hc, if_true, Except.ok.injEq] at h
    exact ⟨hc, h.symm⟩
  · simp only [hc, if_false] at h
    cases h

theorem renameCol5_ok_elim {df e : DFrame} (h : renameCol5 df = .ok e) :
    ∃ old, df.cols.get? 5 = some old ∧
      e = { df with cols := df.cols.map (fun c => if c = old then "Timestamp" else c) } := by
  unfold renameCol5 at h
  cases h5 : df.cols.get? 5 with
  | none => rw [h5] at h; cases h
  | some old =>
    rw [h5] at h
    exact ⟨old, rfl, (Except.ok.inj h).symm⟩

theorem coerceTsCol_ok_elim {p : String → Option Nat} {df e : DFrame}
    (h : coerceTsCol p df = .ok e) :
    ∃ i, uniqueIdx df.cols "Timestamp" = some i ∧
      e = { df with
            rows := df.rows.map (fun r => r.set i (coerceCell p (r.getD i Cell.null))) } := by
  unfold coerceTsCol at h
  cases hu : uniqueIdx df.cols "Timestamp" with
  | none => rw [hu] at h; cases h
  | some i =>
    rw [hu] at h
    exact ⟨i, rfl, (Except.ok.inj h).symm⟩

theorem dropnaTs_ok_elim {df e : DFrame} (h : dropnaTs df = .ok e) :
    ∃ i, uniqueIdx df.cols "Timestamp" = some i ∧
      e = { df with rows := df.rows.filter (fun r => !isNullCell (r.getD i Cell.null)) } := by
  unfold dropnaTs at h
  cases hu : uniqueIdx df.cols "Timestamp" with
  | none => rw [hu] at h; cases h
  | some i =>
    rw [hu] at h
    exact ⟨i, rfl, (Except.ok.inj h).symm⟩

theorem setKestrelNames_ok_elim {df e : DFrame} (h : setKestrelNames df = .ok e) :
    df.cols.length = 15 ∧ e = { df with cols := kestrelCsvNames } := by
  unfold setKestrelNames at h
  by_cases hc : df.cols.length = 15
  · simp only [hc, if_true, Except.ok.injEq] at h
    exact ⟨hc, h.symm⟩
  · simp only [hc, if_false] at h
    cases h

theorem selectCols_ok_elim {df e : DFrame} {names : List String}
    (h : selectCols df names = .ok e) :
    names.all (fun nm => df.cols.contains nm) = true ∧
    e = { cols := names,
          rows := df.rows.map (fun r =>
            names.map (fun nm => r.getD (df.cols.indexOf nm) Cell.null)) } := by
  unfold selectCols at h
  by_cases hc : names.all (fun nm => df.cols.contains nm) = true
  · simp only [hc, if_true, Except.ok.injEq] at h
    exact ⟨hc, h.symm⟩
  · simp only [hc, if_false] at h
    cases h

theorem renameKestrelCols_ok_elim {df e : DFrame} (h : renameKestrelCols df = .ok e) :
    ∃ c0 c1 c2 c3, df.cols.get? 0 = some c0 ∧ df.cols.get? 1 = some c1 ∧
      df.cols.get? 2 = some c2 ∧ df.cols.get? 3 = some c3 ∧
      e = { df with cols := df.cols.map (kestrelRenameMap c0 c1 c2 c3) } := by
  unfold renameKestrelCols at h
  cases h0 : df.cols.get? 0 with
  | none => rw [h0] at h; cases h
  | some c0 =>
    cases h1 : df.cols.get? 1 with
    | none => rw [h0, h1] at h; cases h
    | some c1 =>
      cases h2 : df.cols.get? 2 with
      | none => rw [h0, h1, h2] at h; cases h
      | some c2 =>
        cases h3 : df.cols.get? 3 with
        | none => rw [h0, h1, h2, h3] at h; cases h
        | some c3 =>
          rw [h0, h1, h2, h3] at h
          exact ⟨c0, c1, c2, c3, rfl, rfl, rfl, rfl, (Except.ok.inj h).symm⟩

/- Parse results are times of day; coercion facts. -/

theorem parseHMS_lt {l : List Char} {t : Nat} (h : parseHMS l = some t) : t < 86400 := by
  unfold parseHMS at h
  split at h
  · split at h
    · split at h
      · rename_i hcond
        simp only [Bool.and_eq_true, decide_eq_true_eq] at hcond
        obtain ⟨⟨hh, hm⟩, hs⟩ := hcond
        injection h with h
        omega
      · cases h
    · cases h
  · cases h

theorem parseHMSStr_lt {s : String} {t : Nat} (h : parseHMSStr s = some t) : t < 86400 :=
  parseHMS_lt h

/-- Coercing a cell a second time under the same '%H:%M:%S' mapping changes
nothing: formatted output parses back to the same value. -/
theorem coerceCell_hms_idem (c : Cell) :
    coerceCell parseHMSStr (coerceCell parseHMSStr c) = coerceCell parseHMSStr c := by
  cases c with
  | str s =>
    simp only [coerceCell]
    cases hp : parseHMSStr s with
    | none => rfl
    | some t =>
      have ht := parseHMSStr_lt hp
      simp only [coerceCell, parseHMSStr, formatHMSStr]
      rw [parseHMS_formatHMS ht]
  | num n => rfl
  | null => rfl
  | time t => rfl

/-- A coerced timestamp cell is null or a formatted time below a day. -/
theorem coerceCell_hms_cases (c : Cell) :
    coerceCell parseHMSStr c = Cell.null ∨
    ∃ t, t < 86400 ∧ coerceCell parseHMSStr c = Cell.str (formatHMSStr t) := by
  cases c with
  | str s =>
    cases hp : parseHMSStr s with
    | none => left; simp [coerceCell, hp]
    | some t => right; exact ⟨t, parseHMSStr_lt hp, by simp [coerceCell, hp]⟩
  | num n => left; rfl
  | null => left; rfl
  | time t => left; rfl

/-- An already-formatted timestamp cell is a fixed point of the coercion. -/
theorem coerceCell_hms_fixed {c : Cell}
    (h : c = Cell.null ∨ ∃ t, t < 86400 ∧ c = Cell.str (formatHMSStr t)) :
    coerceCell parseHMSStr c = c := by
  rcases h with rfl | ⟨t, ht, rfl⟩
  · rfl
  · simp only [coerceCell, parseHMSStr, formatHMSStr]
    rw [parseHMS_formatHMS ht]

/-- Renaming column 5 is the identity when that column is already named
Timestamp. -/
theorem renameCol5_id {df : DFrame} (h5 : df.cols.get? 5 = some "Timestamp") :
    renameCol5 df = .ok df := by
  unfold renameCol5
  rw [h5]
  have hmap : df.cols.map (fun c => if c = "Timestamp" then "Timestamp" else c) = df.cols := by
    rw [List.map_congr_left (g := id) (fun c _ => by by_cases hc : c = "Timestamp" <;> simp [hc]),
      List.map_id]
  show Except.ok
      { cols := df.cols.map (fun c => if c = "Timestamp" then "Timestamp" else c),
        rows := df.rows } = Except.ok df
  rw [hmap]

theorem bind_ok_elim {α β : Type} {e : Except Err α} {f : α → Except Err β} {b : β}
    (h : (e >>= f) = .ok b) : ∃ a, e = .ok a ∧ f a = .ok b := by
  cases e with
  | error err => simp [Bind.bind, Except.bind] at h
  | ok a => exact ⟨a, rfl, h⟩

/- The session sheet read by read_file satisfies the shape invariant. -/

theorem readSheet_inv {raw g : DFrame} (h : normalizeGarminXlsxSheet raw = .ok g) :
    ReadSheetInv g ∧
    g.rows = raw.rows.map (fun r =>
      (r.take 9).set 5 (coerceCell parseHMSStr (r.getD 5 Cell.null))) := by
  unfold normalizeGarminXlsxSheet at h
  obtain ⟨d1, h1, h⟩ := bind_ok_elim h
  obtain ⟨d2, h2, h3⟩ := bind_ok_elim h
  obtain ⟨hle, rfl⟩ := usecolsN_ok_elim h1
  obtain ⟨old, hold, rfl⟩ := renameCol5_ok_elim h2
  obtain ⟨i, hui, rfl⟩ := coerceTsCol_ok_elim h3
  have hget5 : (List.map (fun c => if c = old then "Timestamp" else c) (raw.cols.take 9)).get? 5
      = some "Timestamp" := by
    rw [List.get?_map]
    simp only at hold
    rw [hold]
    simp
  obtain rfl : 5 = i := uniqueIdx_eq_of_get hui hget5
  have hrows : (List.map (fun r => r.take 9) raw.rows).map
        (fun r => r.set 5 (coerceCell parseHMSStr (r.getD 5 Cell.null)))
      = raw.rows.map (fun r =>
        (r.take 9).set 5 (coerceCell parseHMSStr (r.getD 5 Cell.null))) := by
    rw [List.map_map]
    refine List.map_congr_left (fun r _ => ?_)
    simp only [Function.comp]
    rw [list_getD_take r (by omega : (5 : Nat) < 9)]
  refine ⟨⟨?_, ?_, ?_⟩, ?_⟩
  · simp [List.length_take, Nat.min_eq_left hle]
  · exact hui
  · intro r hr
    simp only at hr
    rw [hrows] at hr
    obtain ⟨r0, hr0, rfl⟩ := List.mem_map.mp hr
    constructor
    · rw [List.length_set]
      exact List.length_take_le 9 r0
    · rw [list_getD_set_self]
      by_cases hlt : 5 < (r0.take 9).length
      · simp only [hlt, if_true]
        rcases coerceCell_hms_cases (r0.getD 5 Cell.null) with hc | ⟨t, ht, hc⟩
        · exact .inl hc
        · exact .inr ⟨t, ht, hc⟩
      · exact .inl (if_neg hlt)
  · exact hrows

theorem coerceTsCol_id_of_fixed {df : DFrame} (hui : uniqueIdx df.cols "Timestamp" = some 5)
    (hrows : ∀ r ∈ df.rows, r.getD 5 Cell.null = Cell.null ∨
      ∃ t, t < 86400 ∧ r.getD 5 Cell.null = Cell.str (formatHMSStr t)) :
    coerceTsCol parseHMSStr df = .ok df := by
  unfold coerceTsCol
  rw [hui]
  have hmap : df.rows.map (fun r => r.set 5 (coerceCell parseHMSStr (r.getD 5 Cell.null)))
      = df.rows := by
    rw [List.map_congr_left (g := id) (fun r hr => ?_), List.map_id]
    show r.set 5 (coerceCell parseHMSStr (r.getD 5 Cell.null)) = r
    rw [coerceCell_hms_fixed (hrows r hr), list_set_getD]
  show Except.ok
      { cols := df.cols,
        rows := df.rows.map (fun r => r.set 5 (coerceCell parseHMSStr (r.getD 5 Cell.null))) }
    = Except.ok df
  rw [hmap]

/-- On a read-normalized session sheet the process-stage normalization always
succeeds: the rename and re-parse are identities and the dropna removes
exactly the null-timestamp rows. -/
theorem processNorm_of_inv {df : DFrame} (hg : ReadSheetInv df) :
    garminProcessNorm df =
      .ok { df with rows := df.rows.filter (fun r => !isNullCell (r.getD 5 Cell.null)) } ∧
    NormSheetInv { df with rows := df.rows.filter (fun r => !isNullCell (r.getD 5 Cell.null)) } := by
  obtain ⟨hlen, hui, hrows⟩ := hg
  have h5 : df.cols.get? 5 = some "Timestamp" := uniqueIdx_get hui
  have hren : renameCol5 df = .ok df := renameCol5_id h5
  have hco : coerceTsCol parseHMSStr df = .ok df :=
    coerceTsCol_id_of_fixed hui (fun r hr => (hrows r hr).2)
  constructor
  · unfold garminProcessNorm
    rw [hren]
    show (coerceTsCol parseHMSStr df >>= fun g2 => dropnaTs g2) = _
    rw [hco]
    show dropnaTs df = _
    unfold dropnaTs
    rw [hui]
  · refine ⟨hlen, hui, ?_⟩
    intro r hr
    simp only [List.mem_filter] at hr
    obtain ⟨hrm, hpred⟩ := hr
    obtain ⟨hrlen, hdisj⟩ := hrows r hrm
    refine ⟨hrlen, ?_⟩
    rcases hdisj with hnull | hok
    · rw [hnull] at hpred
      simp [isNullCell] at hpred
    · exact hok

theorem list_map_eq_self {α : Type} {l : List α} {f : α → α} (h : ∀ a ∈ l, f a = a) :
    l.map f = l := by
  induction l with
  | nil => rfl
  | cons a rest ih =>
    rw [List.map_cons, h a (List.mem_cons_self a rest),
      ih (fun x hx => h x (List.mem_cons_of_mem a hx))]

/-- A fully normalized session sheet is a fixed point of the whole session
normalization (read stage and process stage). -/
theorem fullNorm_id_of_inv {df : DFrame} (hg : NormSheetInv df) :
    normalizeGarminXlsxSheet df = .ok df ∧ garminProcessNorm df = .ok df ∧
    garminFullNormXlsx df = .ok df := by
  obtain ⟨hlen, hui, hrows⟩ := hg
  have h5 : df.cols.get? 5 = some "Timestamp" := uniqueIdx_get hui
  have hus : usecolsN 9 df = .ok df := by
    unfold usecolsN
    rw [if_pos (by omega)]
    have hc : df.cols.take 9 = df.cols := List.take_of_length_le (by omega)
    have hr : df.rows.map (fun r => r.take 9) = df.rows :=
      list_map_eq_self (fun r hr => List.take_of_length_le (hrows r hr).1)
    rw [hc, hr]
  have hren : renameCol5 df = .ok df := renameCol5_id h5
  have hco : coerceTsCol parseHMSStr df = .ok df :=
    coerceTsCol_id_of_fixed hui (fun r hr => .inr (hrows r hr).2)
  have hdr : dropnaTs df = .ok df := by
    unfold dropnaTs
    rw [hui]
    have hf : df.rows.filter (fun r => !isNullCell (r.getD 5 Cell.null)) = df.rows := by
      rw [List.filter_eq_self.mpr]
      intro r hr
      obtain ⟨t, ht, hts⟩ := (hrows r hr).2
      rw [hts]
      rfl
    show Except.ok
        { cols := df.cols, rows := df.rows.filter (fun r => !isNullCell (r.getD 5 Cell.null)) }
      = Except.ok df
    rw [hf]
  have hread : normalizeGarminXlsxSheet df = .ok df := by
    unfold normalizeGarminXlsxSheet
    rw [hus]
    show (renameCol5 df >>= fun d2 => coerceTsCol parseHMSStr d2) = .ok df
    rw [hren]
    exact hco
  have hproc : garminProcessNorm df = .ok df := by
    unfold garminProcessNorm
    rw [hren]
    show (coerceTsCol parseHMSStr df >>= fun g2 => dropnaTs g2) = .ok df
    rw [hco]
    exact hdr
  refine ⟨hread, hproc, ?_⟩
  unfold garminFullNormXlsx
  rw [hread]
  exact hproc

/- Weather normalization: shape of successful outputs. -/

theorem kcsv_elim {raw y : DFrame} (h : normalizeKestrelCsv raw = .ok y) :
    raw.cols.length = 15 ∧ y.cols = kestrelCsvNames ∧
    y.rows.length = raw.rows.length ∧
    ∀ r2 ∈ y.rows, ∃ r0 ∈ raw.rows,
      r2.getD 0 Cell.null
        = (r0.set 0 (coerceCell parseKestrelTsStr (r0.getD 0 Cell.null))).getD 0 Cell.null := by
  unfold normalizeKestrelCsv at h
  obtain ⟨d1, h1, h⟩ := bind_ok_elim h
  obtain ⟨d2, h2, h3⟩ := bind_ok_elim h
  obtain ⟨hlen15, rfl⟩ := setKestrelNames_ok_elim h1
  obtain ⟨i, hui, rfl⟩ := coerceTsCol_ok_elim h2
  dsimp only at hui h3
  have hget0 : kestrelCsvNames.get? 0 = some "Timestamp" := by decide
  obtain rfl : 0 = i := uniqueIdx_eq_of_get hui hget0
  obtain ⟨hall, rfl⟩ := selectCols_ok_elim h3
  refine ⟨hlen15, rfl, by simp, ?_⟩
  intro r hr
  simp only [List.mem_map] at hr
  obtain ⟨r1, hr1, rfl⟩ := hr
  obtain ⟨r0, hr0, rfl⟩ := hr1
  exact ⟨r0, hr0, rfl⟩

/-- Every Timestamp cell of a normalized weather CSV table is null or an
HH:MM:SS-formatted string. -/
theorem kcsv_ts_cases {raw y : DFrame} (h : normalizeKestrelCsv raw = .ok y) :
    ∀ r ∈ y.rows, r.getD 0 Cell.null = Cell.null ∨
      ∃ t, r.getD 0 Cell.null = Cell.str (formatHMSStr t) := by
  intro r hr
  obtain ⟨_, _, _, hrel⟩ := kcsv_elim h
  obtain ⟨r0, hr0, heq⟩ := hrel r hr
  rw [heq, list_getD_set_self]
  by_cases hlt : 0 < r0.length
  · simp only [hlt, if_true]
    cases hc : r0.getD 0 Cell.null with
    | str s =>
      cases hp : parseKestrelTsStr s with
      | none => left; simp [coerceCell, hp]
      | some t => right; exact ⟨t, by simp [coerceCell, hp]⟩
    | num n => left; rfl
    | null => left; rfl
    | time t => left; rfl
  · exact .inl (if_neg hlt)

theorem kxlsx_elim {raw y : DFrame} (h : normalizeKestrelXlsx raw = .ok y) :
    (∃ ti, uniqueIdx y.cols "Timestamp" = some ti) ∧
    y.rows.length = raw.rows.length := by
  unfold normalizeKestrelXlsx at h
  obtain ⟨d1, h1, h⟩ := bind_ok_elim h
  obtain ⟨d2, h2, h⟩ := bind_ok_elim h
  obtain ⟨d3, h3, h4⟩ := bind_ok_elim h
  obtain ⟨i, hui, rfl⟩ := coerceTsCol_ok_elim h4
  refine ⟨⟨i, hui⟩, ?_⟩
  obtain ⟨hle, rfl⟩ := usecolsN_ok_elim h1
  obtain ⟨c0, c1, c2, c3, _, _, _, _, rfl⟩ := renameKestrelCols_ok_elim h2
  obtain ⟨_, rfl⟩ := selectCols_ok_elim h3
  simp

/-- The fully normalized session sheet keeps exactly the raw rows whose
position-5 timestamp parses. -/
theorem sessionNorm_count {raw g3 : DFrame} (h : garminFullNormXlsx raw = .ok g3) :
    g3.rows.length = raw.rows.countP tsParses5 := by
  unfold garminFullNormXlsx at h
  obtain ⟨a, hread, hproc⟩ := bind_ok_elim h
  obtain ⟨hinv, hrows⟩ := readSheet_inv hread
  obtain ⟨hpn, _⟩ := processNorm_of_inv hinv
  rw [hpn] at hproc
  have hg3 := (Except.ok.inj hproc).symm
  rw [hg3]
  show (a.rows.filter (fun r => !isNullCell (r.getD 5 Cell.null))).length = _
  rw [hrows, ← List.countP_eq_length_filter, List.countP_map]
  apply List.countP_congr
  intro r hr
  have heq : (!isNullCell (((r.take 9).set 5
      (coerceCell parseHMSStr (r.getD 5 Cell.null))).getD 5 Cell.null)) = tsParses5 r := ?_
  · simp only [Function.comp_apply]
    rw [heq]
  rw [list_getD_set_self]
  by_cases hlt : 5 < (r.take 9).length
  · rw [if_pos hlt]
    unfold tsParses5
    cases hc : r.getD 5 Cell.null with
    | str s => cases hp : parseHMSStr s <;> simp [coerceCell, hp, isNullCell]
    | num n => simp [coerceCell, isNullCell]
    | null => simp [coerceCell, isNullCell]
    | time t => simp [coerceCell, isNullCell]
  · rw [if_neg hlt]
    have hle : r.length ≤ 5 := by
      simp only [List.length_take] at hlt
      omega
    unfold tsParses5
    rw [list_getD_of_le hle]
    simp [isNullCell]

/-- Counterexample to C3 as stated: weather normalization does not drop the
row whose timestamp fails to parse — the normalized table has the same row
count as the raw table even though not every timestamp parses (the failed
row survives with a null Timestamp). -/
theorem claim3_counterexample :
    normalizeKestrelCsv c3raw = .ok c3norm ∧
    c3norm.rows.length = c3raw.rows.length ∧
    ¬(∀ r ∈ c3raw.rows, kestrelTsParses r = true) ∧
    c3norm.rows.getD 0 [] ≠ [] := by
  refine ⟨by decide, by decide, ?_, by decide⟩
  intro hall
  have := hall (c3raw.rows.getD 0 []) (by decide)
  revert this
  decide

/-- Claim C3 (amended): the drop-on-parse-failure law holds for session
sheets only — a session sheet normalizes to exactly the rows whose
timestamp parses, so its count is at most the raw count with equality iff
every timestamp parses; weather normalization (CSV and spreadsheet alike)
always preserves the row count, keeping unparseable rows with null
timestamps. -/
theorem claim3 :
    (∀ raw g3, garminFullNormXlsx raw = .ok g3 →
      g3.rows.length = raw.rows.countP tsParses5 ∧
      g3.rows.length ≤ raw.rows.length ∧
      (g3.rows.length = raw.rows.length ↔ ∀ r ∈ raw.rows, tsParses5 r = true)) ∧
    (∀ raw y, normalizeKestrelCsv raw = .ok y → y.rows.length = raw.rows.length) ∧
    (∀ raw y, normalizeKestrelXlsx raw = .ok y → y.rows.length = raw.rows.length) := by
  refine ⟨?_, ?_, ?_⟩
  · intro raw g3 h
    have hc := sessionNorm_count h
    refine ⟨hc, ?_, ?_⟩
    · rw [hc]
      exact List.countP_le_length _
    · rw [hc]
      exact List.countP_eq_length
  · intro raw y h
    exact (kcsv_elim h).2.2.1
  · intro raw y h
    exact (kxlsx_elim h).2

/-- Witness for the amended C3: a session sheet with one parseable and one
malformed timestamp keeps exactly one row, and the weather table with a
failed timestamp keeps its row. -/
theorem claim3_witness :
    (gsheetNorm.rows.length = gsheetRaw.rows.countP tsParses5 ∧
      gsheetNorm.rows.length ≤ gsheetRaw.rows.length ∧
      (gsheetNorm.rows.length = gsheetRaw.rows.length ↔
        ∀ r ∈ gsheetRaw.rows, tsParses5 r = true)) ∧
    c3norm.rows.length = c3raw.rows.length := by
  refine ⟨claim3.1 gsheetRaw gsheetNorm (by decide), ?_⟩
  exact claim3.2.1 c3raw c3norm (by decide)

/-- Counterexample to C8 as stated: weather normalization is not idempotent —
re-applying it to its own output turns the parsed 10:00:00 timestamp into
null, because 'HH:MM:SS' text does not match the weather source's
'%Y-%m-%d %I:%M:%S %p' format. -/
theorem claim8_counterexample :
    normalizeKestrelCsv c8raw = .ok c8once ∧
    normalizeKestrelCsv c8once = .ok c8twice ∧
    c8twice ≠ c8once := by
  refine ⟨by decide, by decide, by decide⟩

/-- Claim C8 (amended): session normalization is idempotent — re-applying
the positional mapping, timestamp parse and null-row drop to a normalized
session sheet is a no-op; the CSV weather normalization is not — a second
application re-parses the already-formatted HH:MM:SS timestamps under the
weather date format, which fails, so every Timestamp cell of the
twice-normalized weather table is null. -/
theorem claim8 :
    (∀ raw g, garminFullNormXlsx raw = .ok g → garminFullNormXlsx g = .ok g) ∧
    (∀ raw y z, normalizeKestrelCsv raw = .ok y → normalizeKestrelCsv y = .ok z →
      ∀ r ∈ z.rows, r.getD 0 Cell.null = Cell.null) := by
  constructor
  · intro raw g h
    unfold garminFullNormXlsx at h
    obtain ⟨a, hread, hproc⟩ := bind_ok_elim h
    obtain ⟨hinv, _⟩ := readSheet_inv hread
    obtain ⟨hpn, hninv⟩ := processNorm_of_inv hinv
    rw [hpn] at hproc
    obtain rfl := Except.ok.inj hproc
    exact (fullNorm_id_of_inv hninv).2.2
  · intro raw y z h1 h2 r hr
    obtain ⟨_, _, _, hrel⟩ := kcsv_elim h2
    obtain ⟨r0, hr0, heq⟩ := hrel r hr
    rw [heq, list_getD_set_self]
    by_cases hlt : 0 < r0.length
    · rw [if_pos hlt]
      rcases kcsv_ts_cases h1 r0 hr0 with hnull | ⟨t, hts⟩
      · rw [hnull]
        rfl
      · rw [hts]
        simp only [coerceCell, parseKestrelTsStr, formatHMSStr]
        rw [parseKestrelTs_formatHMS]
    · exact if_neg hlt

/-- Witness for the amended C8: the normalized session sheet is a fixed
point, and the twice-normalized weather table's timestamp is null. -/
theorem claim8_witness :
    garminFullNormXlsx gsheetNorm = .ok gsheetNorm ∧
    ∀ r ∈ c8twice.rows, r.getD 0 Cell.null = Cell.null := by
  constructor
  · exact claim8.1 gsheetRaw gsheetNorm (by decide)
  · exact claim8.2 c8raw c8once c8twice (by decide) (by decide)

/- The aligner's only effect on the weather table is the in-place Timestamp
conversion. -/

theorem exceptOfOption_ok_elim {α : Type} {o : Option α} {e : Err} {a : α}
    (h : exceptOfOption o e = .ok a) : o = some a := by
  cases o with
  | none => cases h
  | some b => cases h; rfl

theorem list_set_of_le {α : Type} {l : List α} {i : Nat} (h : l.length ≤ i) (v : α) :
    l.set i v = l := by
  induction l generalizing i with
  | nil => rfl
  | cons a rest ih =>
    cases i with
    | zero => simp at h
    | succ j =>
      simp only [List.set]
      rw [ih (by simpa using h)]

theorem strictCellD_idem (c : Cell) : strictCellD (strictCellD c) = strictCellD c := by
  cases c with
  | str s =>
    unfold strictCellD strictCoerceCell
    cases hp : parseHMSStr s with
    | none => simp [hp]
    | some t => simp [hp]
  | num n => rfl
  | null => rfl
  | time t => rfl

theorem find_closest_kestrel_mut {rowCols : List String} {row : List Cell} {df : DFrame}
    {out : List Cell} {df' : DFrame}
    (h : find_closest rowCols row df = .ok (out, df')) :
    ∃ ti, uniqueIdx df.cols "Timestamp" = some ti ∧ df' = strictParseTable ti df := by
  unfold find_closest at h
  obtain ⟨ri, hri, h⟩ := bind_ok_elim h
  obtain ⟨rt, hrt, h⟩ := bind_ok_elim h
  obtain ⟨ti, hti, h⟩ := bind_ok_elim h
  obtain ⟨newRows, hmap, h⟩ := bind_ok_elim h
  have hti' := exceptOfOption_ok_elim hti
  have hrows : newRows = df.rows.map (fun r => r.set ti (strictCellD (r.getD ti Cell.null))) := by
    refine mapM_ok_elim hmap ?_
    intro r y hy
    obtain ⟨c, hc, hy2⟩ := bind_ok_elim hy
    have hcd : strictCellD (r.getD ti Cell.null) = c := by
      unfold strictCellD
      rw [hc]
    rw [← hcd] at hy2
    exact (Except.ok.inj hy2).symm
  refine ⟨ti, hti', ?_⟩
  subst hrows
  dsimp only at h
  split at h
  · have hinj := Except.ok.inj h
    have hdf' : df' = { df with
        rows := df.rows.map (fun r => r.set ti (strictCellD (r.getD ti Cell.null))) } := by
      have := congrArg Prod.snd hinj
      simpa using this.symm
    rw [hdf']
    rfl
  · cases h

theorem strictParseTable_idem (ti : Nat) (df : DFrame) :
    strictParseTable ti (strictParseTable ti df) = strictParseTable ti df := by
  unfold strictParseTable
  simp only [List.map_map]
  have hpt : ∀ r : List Cell,
      ((r.set ti (strictCellD (r.getD ti Cell.null))).set ti
        (strictCellD ((r.set ti (strictCellD (r.getD ti Cell.null))).getD ti Cell.null)))
      = r.set ti (strictCellD (r.getD ti Cell.null)) := by
    intro r
    by_cases hlt : ti < r.length
    · rw [list_getD_set_self, if_pos hlt, strictCellD_idem, List.set_set]
    · have hs : r.set ti (strictCellD (r.getD ti Cell.null)) = r :=
        list_set_of_le (by omega) _
      rw [hs]
      exact hs
  exact congrArg (fun rws => DFrame.mk df.cols rws)
    (List.map_congr_left (fun r _ => hpt r))

theorem alignRows_kestrel {cols : List String} {rows : List (List Cell)} {k : DFrame}
    {res : List (List Cell) × DFrame} (h : alignRows cols rows k = .ok res) :
    res.2 = k ∨ ∃ ti, uniqueIdx k.cols "Timestamp" = some ti ∧
      res.2 = strictParseTable ti k := by
  induction rows generalizing k res with
  | nil =>
    unfold alignRows at h
    obtain rfl := Except.ok.inj h
    exact .inl rfl
  | cons r rs ih =>
    unfold alignRows at h
    obtain ⟨p1, hfc, h⟩ := bind_ok_elim h
    obtain ⟨c, k1⟩ := p1
    obtain ⟨p2, hrec, h⟩ := bind_ok_elim h
    obtain ⟨cs, k2⟩ := p2
    obtain rfl := Except.ok.inj h
    obtain ⟨ti, hti, hk1⟩ := find_closest_kestrel_mut hfc
    rcases ih hrec with h2 | ⟨ti2, hti2, hk2⟩
    · right
      refine ⟨ti, hti, ?_⟩
      have h2' : k2 = k1 := h2
      show k2 = _
      rw [h2', hk1]
    · right
      refine ⟨ti, hti, ?_⟩
      have hcols : k1.cols = k.cols := by rw [hk1]; rfl
      rw [hcols] at hti2
      have : ti2 = ti := by
        rw [hti] at hti2
        exact (Option.some.inj hti2).symm
      subst this
      have hk2' : k2 = strictParseTable ti2 k1 := hk2
      show k2 = _
      rw [hk2', hk1, strictParseTable_idem]

/-- Counterexample to C4 as stated: alignment mutates both of its inputs —
after process_garmin_sheet, the weather table's Timestamp cell has been
overwritten with a parsed time value, and the session table's sixth column
has been renamed, so neither input is unchanged. -/
theorem claim4_counterexample :
    process_garmin_sheet c4g c4k = .ok (c4combined, c4gNorm, c4kMut) ∧
    c4kMut ≠ c4k ∧ c4gNorm ≠ c4g := by
  refine ⟨by decide, by decide, by decide⟩

/-- Claim C4 (amended): the aligner is not free of side effects, but its
effect on the weather table is exactly the in-place Timestamp conversion:
after a successful alignment the weather table keeps its column names and
its row count, and it is either untouched (no shot row was aligned) or equal
to the original with only its unique Timestamp column's cells replaced by
their strictly parsed values. -/
theorem claim4 (garmin kestrel comb g3 k2 : DFrame)
    (h : process_garmin_sheet garmin kestrel = .ok (comb, g3, k2)) :
    k2.cols = kestrel.cols ∧ k2.rows.length = kestrel.rows.length ∧
    (k2 = kestrel ∨ ∃ ti, uniqueIdx kestrel.cols "Timestamp" = some ti ∧
      k2 = strictParseTable ti kestrel) := by
  unfold process_garmin_sheet at h
  obtain ⟨g3a, hnorm, h⟩ := bind_ok_elim h
  obtain ⟨p, hrec, h⟩ := bind_ok_elim h
  obtain ⟨closest, kx⟩ := p
  have hk2 : k2 = kx := by
    have := congrArg (fun q => q.2.2) (Except.ok.inj h)
    exact this.symm
  rw [hk2]
  have hdisj := alignRows_kestrel hrec
  rcases hdisj with h2 | ⟨ti, hti, h2⟩
  · have h2' : kx = kestrel := h2
    rw [h2']
    exact ⟨rfl, rfl, .inl rfl⟩
  · have h2' : kx = strictParseTable ti kestrel := h2
    rw [h2']
    refine ⟨rfl, ?_, .inr ⟨ti, hti, rfl⟩⟩
    simp [strictParseTable]

/-- Witness for the amended C4 at the concrete aligner run: the mutated
weather table keeps its columns and row count, and equals the strictly
parsed original. -/
theorem claim4_witness :
    c4kMut.cols = c4k.cols ∧ c4kMut.rows.length = c4k.rows.length ∧
    (c4kMut = c4k ∨ ∃ ti, uniqueIdx c4k.cols "Timestamp" = some ti ∧
      c4kMut = strictParseTable ti c4k) :=
  claim4 c4g c4k c4combined c4gNorm c4kMut (by decide)

/- Shape of a successfully process-normalized session sheet. -/

theorem garminProcessNorm_elim {df g3 : DFrame} (h : garminProcessNorm df = .ok g3) :
    ∃ ti, uniqueIdx g3.cols "Timestamp" = some ti ∧
      ∀ r ∈ g3.rows, ∃ t, t < 86400 ∧ r.getD ti Cell.null = Cell.str (formatHMSStr t) := by
  unfold garminProcessNorm at h
  obtain ⟨g1, h1, h⟩ := bind_ok_elim h
  obtain ⟨g2, h2, h3⟩ := bind_ok_elim h
  obtain ⟨old, hold, rfl⟩ := renameCol5_ok_elim h1
  obtain ⟨i, hui, rfl⟩ := coerceTsCol_ok_elim h2
  obtain ⟨i2, hui2, rfl⟩ := dropnaTs_ok_elim h3
  have hii : i2 = i := by
    have := hui2
    rw [hui] at this
    exact (Option.some.inj this).symm
  subst hii
  refine ⟨i2, hui2, ?_⟩
  intro r hr
  simp only [List.mem_filter] at hr
  obtain ⟨hrm, hpred⟩ := hr
  simp only [List.mem_map] at hrm
  obtain ⟨r0, hr0, rfl⟩ := hrm
  rw [list_getD_set_self] at hpred ⊢
  by_cases hlt : i2 < r0.length
  · rw [if_pos hlt] at hpred ⊢
    rcases coerceCell_hms_cases (r0.getD i2 Cell.null) with hc | ⟨t, ht, hc⟩
    · rw [hc] at hpred
      simp [isNullCell] at hpred
    · exact ⟨t, ht, hc⟩
  · rw [if_neg hlt] at hpred
    simp [isNullCell] at hpred

theorem processAll_names {pairs : List (String × DFrame)} {kdf : DFrame}
    {combos : List (String × DFrame)} {kfin : DFrame}
    (h : processAll pairs kdf = .ok (combos, kfin)) :
    combos.map Prod.fst = pairs.map Prod.fst := by
  induction pairs generalizing kdf combos kfin with
  | nil =>
    unfold processAll at h
    have hc : combos = [] := (congrArg Prod.fst (Except.ok.inj h)).symm
    rw [hc]
  | cons p rest ih =>
    obtain ⟨nm, g⟩ := p
    unfold processAll at h
    obtain ⟨t1, hp, h⟩ := bind_ok_elim h
    obtain ⟨comb, g3, k1⟩ := t1
    obtain ⟨t2, hrest, h⟩ := bind_ok_elim h
    obtain ⟨others, k2⟩ := t2
    have hinj := Except.ok.inj h
    have hcombos : combos = (nm, comb) :: others := (congrArg Prod.fst hinj).symm
    rw [hcombos, List.map_cons, List.map_cons, ih hrest]

theorem sheetsOut_names {combos : List (String × DFrame)} {sheets : List OutSheet}
    (h : combos.mapM (fun p => do
        let c ← assignHeaders p.2
        pure (OutSheet.mk p.1 c 5)) = .ok sheets) :
    sheets.map OutSheet.name = combos.map Prod.fst := by
  induction combos generalizing sheets with
  | nil =>
    have : sheets = [] := (Except.ok.inj h).symm
    rw [this]
    rfl
  | cons p rest ih =>
    rw [List.mapM_cons] at h
    obtain ⟨s1, hs1, h⟩ := bind_ok_elim h
    obtain ⟨srest, hsrest, h⟩ := bind_ok_elim h
    have : s1 :: srest = sheets := Except.ok.inj h
    rw [← this, List.map_cons, List.map_cons, ih hsrest]
    obtain ⟨c, hc, hs⟩ := bind_ok_elim hs1
    have : s1 = OutSheet.mk p.1 c 5 := (Except.ok.inj hs).symm
    rw [this]

/-- After both reads succeed, process_files is the alignment loop followed by
the filename choice and the sheet writes. -/
theorem process_files_eq {kf gf : SrcFile} {ex : List String} {kdf : DFrame}
    {gres : ReadResult}
    (hk : read_file kf true = .ok (.single kdf))
    (hg : read_file gf false = .ok gres) :
    process_files kf gf ex =
      (processAll (pairsOf gres) kdf >>= fun cr =>
        (exceptOfOption (generate_unique_filename ex
          (joinPath (dirname kf.path) "Combined_Output.xlsx")) .ioErr) >>= fun outPath =>
        (cr.1.mapM (fun p => do
          let c ← assignHeaders p.2
          pure (OutSheet.mk p.1 c 5))) >>= fun sheetsOut =>
        .ok (outPath, sheetsOut)) := by
  unfold process_files
  rw [hk, hg]
  rfl

/-- find_closest on an empty weather table fails at idxmin: there is nothing
to minimize over. -/
theorem find_closest_empty {rowCols : List String} {row : List Cell} {df : DFrame}
    {ri ti : Nat} {rt : Option Nat}
    (hdf : df.rows = [])
    (hri : uniqueIdx rowCols "Timestamp" = some ri)
    (hrow : strictParseRowTime (row.getD ri Cell.null) = .ok rt)
    (hti : uniqueIdx df.cols "Timestamp" = some ti) :
    find_closest rowCols row df = .error .alignment := by
  simp only [find_closest, hri, hti, exceptOfOption, hrow, hdf, Bind.bind, Except.bind,
    List.mapM_nil, Pure.pure, Except.pure, List.map_nil, idxmin, idxminV, Option.map_none']

/-- With an empty weather table, the first nonempty session sheet's first
lookup hits idxmin over an empty difference series. -/
theorem processAll_alignment {pairs : List (String × DFrame)} {kdf : DFrame}
    (hke : kdf.rows = [])
    (hti : ∃ ti, uniqueIdx kdf.cols "Timestamp" = some ti)
    (hsheets : ∀ p ∈ pairs, ∃ g3, garminProcessNorm p.2 = .ok g3)
    (hne : ∃ p ∈ pairs, ∃ g3, garminProcessNorm p.2 = .ok g3 ∧ g3.rows ≠ []) :
    processAll pairs kdf = .error .alignment := by
  induction pairs with
  | nil =>
    obtain ⟨p, hp, _⟩ := hne
    simp at hp
  | cons q rest ih =>
    obtain ⟨nm, g⟩ := q
    obtain ⟨g3, hnorm⟩ := hsheets (nm, g) (List.mem_cons_self _ _)
    obtain ⟨ti', hui', hrows'⟩ := garminProcessNorm_elim hnorm
    obtain ⟨ti, htik⟩ := hti
    cases hg3 : g3.rows with
    | nil =>
      have hsheet : process_garmin_sheet g kdf = .ok
          ({ cols := g3.cols ++ kdf.cols, rows := [] }, g3, kdf) := by
        unfold process_garmin_sheet
        rw [hnorm]
        show (alignRows g3.cols g3.rows kdf >>= _) = _
        rw [hg3]
        rfl
      show (process_garmin_sheet g kdf >>= _) = _
      rw [hsheet]
      show (processAll rest kdf >>= _) = _
      have hrest : processAll rest kdf = .error .alignment := by
        apply ih (fun p hp => hsheets p (List.mem_cons_of_mem _ hp))
        obtain ⟨p, hp, g3w, hnw, hnew⟩ := hne
        rcases List.mem_cons.mp hp with rfl | hp'
        · rw [hnorm] at hnw
          obtain rfl := Except.ok.inj hnw
          exact absurd hg3 hnew
        · exact ⟨p, hp', g3w, hnw, hnew⟩
      rw [hrest]
      rfl
    | cons r rs =>
      have hrowts := hrows' r (by rw [hg3]; exact List.mem_cons_self r rs)
      obtain ⟨t, ht, hts⟩ := hrowts
      have hrowp : strictParseRowTime (r.getD ti' Cell.null) = .ok (some t) := by
        rw [hts]
        simp [strictParseRowTime, parseHMSStr, formatHMSStr, parseHMS_formatHMS ht]
      have hfc : find_closest g3.cols r kdf = .error .alignment :=
        find_closest_empty hke hui' hrowp htik
      have hsheet : process_garmin_sheet g kdf = .error .alignment := by
        unfold process_garmin_sheet
        rw [hnorm]
        show (alignRows g3.cols g3.rows kdf >>= _) = _
        rw [hg3]
        show (alignRows g3.cols (r :: rs) kdf >>= _) = _
        unfold alignRows
        rw [hfc]
        rfl
      show (process_garmin_sheet g kdf >>= _) = _
      rw [hsheet]
      rfl

/- Read-level facts. -/

theorem map_single_ok {e : Except Err DFrame} {kdf : DFrame}
    (h : e.map ReadResult.single = .ok (.single kdf)) : e = .ok kdf := by
  cases e with
  | error err => cases h
  | ok y =>
    have h2 : ReadResult.single y = .single kdf := Except.ok.inj h
    rw [ReadResult.single.inj h2]

theorem read_kestrel_ti {kf : SrcFile} {kdf : DFrame}
    (h : read_file kf true = .ok (.single kdf)) :
    ∃ ti, uniqueIdx kdf.cols "Timestamp" = some ti := by
  unfold read_file at h
  by_cases hx : strEndsWith kf.path ".xlsx" = true
  · rw [if_pos hx] at h
    cases hc : kf.content with
    | workbook ws =>
      rw [hc] at h
      cases ws with
      | nil => cases h
      | cons p rest =>
        obtain ⟨nm, d⟩ := p
        exact (kxlsx_elim (map_single_ok h)).1
    | text d =>
      rw [hc] at h
      cases h
  · rw [if_neg hx] at h
    by_cases hcsv : strEndsWith kf.path ".csv" = true
    · rw [if_pos hcsv] at h
      cases hc : kf.content with
      | workbook ws =>
        rw [hc] at h
        cases h
      | text d =>
        rw [hc] at h
        have hcols := (kcsv_elim (map_single_ok h)).2.1
        refine ⟨0, ?_⟩
        rw [hcols]
        decide
    · rw [if_neg hcsv] at h
      cases h

theorem read_garmin_csv {gf : SrcFile} {gres : ReadResult}
    (hx : strEndsWith gf.path ".xlsx" = false) (hc : strEndsWith gf.path ".csv" = true)
    (h : read_file gf false = .ok gres) : ∃ d, gres = .single d := by
  unfold read_file at h
  rw [if_neg (by rw [hx]; exact Bool.false_ne_true), if_pos hc] at h
  cases hcon : gf.content with
  | workbook ws =>
    rw [hcon] at h
    cases h
  | text d =>
    rw [hcon] at h
    have h2 : Except.map ReadResult.single (normalizeGarminCsv d) = Except.ok gres := h
    cases hn : normalizeGarminCsv d with
    | error e => rw [hn] at h2; cases h2
    | ok y =>
      rw [hn] at h2
      exact ⟨y, (Except.ok.inj h2).symm⟩

theorem processFiles_ok_reads {kf gf : SrcFile} {ex : List String} {pth : String}
    {sheets : List OutSheet}
    (h : process_files kf gf ex = .ok (pth, sheets)) :
    ∃ kdf gres, read_file kf true = .ok (.single kdf) ∧ read_file gf false = .ok gres := by
  unfold process_files at h
  obtain ⟨kres, hkres, h⟩ := bind_ok_elim h
  cases kres with
  | sheets l =>
    dsimp only at h
    simp [Bind.bind, Except.bind] at h
  | single d =>
    dsimp only at h
    generalize hgres : read_file gf false = rres at h
    cases rres with
    | error e => simp [Bind.bind, Except.bind] at h
    | ok gres => exact ⟨d, gres, hkres, rfl⟩

theorem processFiles_ok_names {kf gf : SrcFile} {ex : List String} {kdf : DFrame}
    {gres : ReadResult} {pth : String} {sheets : List OutSheet}
    (hk : read_file kf true = .ok (.single kdf))
    (hg : read_file gf false = .ok gres)
    (h : process_files kf gf ex = .ok (pth, sheets)) :
    sheets.map OutSheet.name = (pairsOf gres).map Prod.fst := by
  rw [process_files_eq hk hg] at h
  obtain ⟨cr, hcr, h⟩ := bind_ok_elim h
  obtain ⟨combos, kfin⟩ := cr
  obtain ⟨op, hop, h⟩ := bind_ok_elim h
  obtain ⟨so, hso, h⟩ := bind_ok_elim h
  have hss : so = sheets := congrArg Prod.snd (Except.ok.inj h)
  rw [← hss, sheetsOut_names hso, processAll_names hcr]

/-- Claim C2: when the normalized weather table is empty, the first aligned
shot record's nearest lookup fails with the alignment error, the whole run
returns that single error, and no output is produced (the model's success
value, which carries the written workbook, is not constructed). The
hypotheses say the two reads succeed, the weather table has no rows, every
session sheet passes its in-place normalization, and at least one session
still has a shot record after the null-timestamp drop. -/
theorem claim2 (kf gf : SrcFile) (ex : List String) (kdf : DFrame) (gres : ReadResult)
    (hk : read_file kf true = .ok (.single kdf))
    (hke : kdf.rows = [])
    (hg : read_file gf false = .ok gres)
    (hsheets : ∀ p ∈ pairsOf gres, ∃ g3, garminProcessNorm p.2 = .ok g3)
    (hne : ∃ p ∈ pairsOf gres, ∃ g3, garminProcessNorm p.2 = .ok g3 ∧ g3.rows ≠ []) :
    process_files kf gf ex = .error .alignment := by
  rw [process_files_eq hk hg, processAll_alignment hke (read_kestrel_ti hk) hsheets hne]
  rfl

/-- Claim C5: output composition is atomic per run — if any session's
alignment fails, the run returns that error and the model's output value
(the workbook with its file path) is never built, while a successful run's
workbook contains one sheet for every session of the input, in order, so no
write begins before every session aligned. -/
theorem claim5 (kf gf : SrcFile) (ex : List String) (kdf : DFrame) (gres : ReadResult)
    (hk : read_file kf true = .ok (.single kdf))
    (hg : read_file gf false = .ok gres) :
    (∀ e, processAll (pairsOf gres) kdf = .error e → process_files kf gf ex = .error e) ∧
    (∀ pth sheets, process_files kf gf ex = .ok (pth, sheets) →
      sheets.map OutSheet.name = (pairsOf gres).map Prod.fst) := by
  constructor
  · intro e he
    rw [process_files_eq hk hg, he]
    rfl
  · intro pth sheets h
    exact processFiles_ok_names hk hg h

/-- Claim C10: a session source in a delimited-text container yields exactly
one combined table, and its output sheet is named Sheet1 whatever the input
file's name is. -/
theorem claim10 (kf gf : SrcFile) (ex : List String) (pth : String)
    (sheets : List OutSheet)
    (hx : strEndsWith gf.path ".xlsx" = false) (hc : strEndsWith gf.path ".csv" = true)
    (hok : process_files kf gf ex = .ok (pth, sheets)) :
    sheets.map OutSheet.name = ["Sheet1"] ∧ sheets.length = 1 := by
  obtain ⟨kdf, gres, hk, hg⟩ := processFiles_ok_reads hok
  obtain ⟨d, rfl⟩ := read_garmin_csv hx hc hg
  have hnames := processFiles_ok_names hk hg hok
  refine ⟨hnames, ?_⟩
  have := congrArg List.length hnames
  simpa using this

/-- Witness for C2, the spec's Scenario D: an empty weather table makes the
run abort with the alignment error before any output exists. -/
theorem claim2_witness : process_files kfEmpty gfShots [] = .error .alignment := by
  refine claim2 kfEmpty gfShots [] kdfEmptyNorm (.single gShotsRaw)
    (by decide) (by decide) (by decide) ?_ ?_
  · intro p hp
    simp only [pairsOf, List.mem_singleton] at hp
    subst hp
    exact ⟨gShotsRaw, by decide⟩
  · refine ⟨("Sheet1", gShotsRaw), by simp [pairsOf], gShotsRaw, by decide, by decide⟩

/-- Witness for C5 at a successful run: the written workbook carries one
sheet per session of the session source, in order. -/
theorem claim5_witness :
    out10.map OutSheet.name = (pairsOf (.single gShotsRaw)).map Prod.fst :=
  (claim5 kfGood gfShots [] c8once (.single gShotsRaw) (by decide) (by decide)).2
    "data/Combined_Output.xlsx" out10 (by decide)

/-- Witness for C10: the concrete CSV session run writes exactly one sheet
named Sheet1. -/
theorem claim10_witness : out10.map OutSheet.name = ["Sheet1"] ∧ out10.length = 1 :=
  claim10 kfGood gfShots [] "data/Combined_Output.xlsx" out10
    (by decide) (by decide) (by decide)
